import Mathlib

/-!
Verification development for the mod-auto-translator repository
(`tranlator.py` and `translator_advance.py`).

Strings are modelled as `List Char`.  Python byte strings that are only
ever passed to external decoders are modelled by an opaque type
parameter `β` together with explicit decode / parse / serialize
functions, matching the fact that `bytes.decode`, `json.loads` and
`json.dumps` are library calls external to the code under study.
-/

namespace ModAutoTranslator

/-- Shorthand: the character list of a string literal. -/
def str (s : String) : List Char := s.toList

/-! ## Python string primitives used by the source -/

/-- Splitting a path on the slash character, as Python `"…".split('/')`:
the list of (possibly empty) segments; never returns an empty list. -/
def splitSlash : List Char → List (List Char)
  | [] => [[]]
  | c :: rest =>
      match splitSlash rest with
      | [] => [[]]
      | seg :: segs => if c == '/' then [] :: seg :: segs else (c :: seg) :: segs

/-- ASCII lowering of every character, modelling `re.IGNORECASE` matching
by comparing lowered text against lowered literals. -/
def toLowerList (s : List Char) : List Char := s.map Char.toLower

/-- Python `str.find(needle)` on the suffix structure: index of the
leftmost occurrence of `needle` (for nonempty needles), `none` when the
needle does not occur (Python returns `-1` there). -/
def findIdx (needle : List Char) : List Char → Option Nat
  | [] => none
  | c :: rest =>
      if needle.isPrefixOf (c :: rest) then some 0
      else (findIdx needle rest).map (· + 1)

/-- Python `needle in text` for nonempty needles. -/
def occursTok (needle s : List Char) : Bool := (findIdx needle s).isSome

/-- Python default whitespace for `str.strip()` (ASCII part). -/
def isPySpace (c : Char) : Bool :=
  c == ' ' || c == '\t' || c == '\n' || c == '\r' || c == '\x0b' || c == '\x0c'

/-- Python `str.strip()`. -/
def pyStrip (s : List Char) : List Char :=
  ((s.dropWhile isPySpace).reverse.dropWhile isPySpace).reverse

/-- Worker for `pyReplace`: scans left to right; a positive first
argument means that many characters of a just-matched needle remain to
be skipped (so that replacements never overlap, as in CPython). -/
def replaceGo (needle repl : List Char) : Nat → List Char → List Char
  | _, [] => []
  | skip + 1, _ :: rest => replaceGo needle repl skip rest
  | 0, c :: rest =>
      if needle.isPrefixOf (c :: rest) then
        repl ++ replaceGo needle repl (needle.length - 1) rest
      else
        c :: replaceGo needle repl 0 rest

/-- Python `s.replace(needle, repl)` for nonempty needles: replace every
non-overlapping occurrence, scanning left to right. -/
def pyReplace (needle repl s : List Char) : List Char := replaceGo needle repl 0 s

/-- Python `os.path.basename`: everything after the last slash. -/
def lastSeg : List (List Char) → List Char
  | [] => []
  | [s] => s
  | _ :: rest => lastSeg rest

def pyBasename (p : List Char) : List Char := lastSeg (splitSlash p)

/-- Index of the last occurrence of a character, as Python `str.rfind`. -/
def rfindChar (c : Char) : List Char → Option Nat
  | [] => none
  | a :: rest =>
      match rfindChar c rest with
      | some i => some (i + 1)
      | none => if a == c then some 0 else none

/-- Stem part of CPython `os.path.splitext` on a slash-free filename:
cut at the last dot unless every character before it is a dot. -/
def splitextStem (f : List Char) : List Char :=
  match rfindChar '.' f with
  | some i => if (f.take i).any (fun c => c != '.') then f.take i else f
  | none => f

/-! ## Path matching and path helpers from the source -/

/-- Filename test of the discovery regex `[^/]+\.json` applied to one
slash-free, already lowered segment. -/
def jsonFileName (f : List Char) : Bool :=
  (str ".json").isSuffixOf f && 6 ≤ f.length

/-- Anchored match of `(assets|data)/[^/]+/lang/[^/]+\.json$` with
`re.IGNORECASE` (tranlator.py line 29).  The `$` is modelled as end of
the entry name. -/
def matchesDiscovery (p : List Char) : Bool :=
  match splitSlash (toLowerList p) with
  | [root, ns, langDir, fname] =>
      (root == str "assets" || root == str "data") && !ns.isEmpty &&
        langDir == str "lang" && jsonFileName fname
  | _ => false

/-- Anchored match of `(assets|data)/[^/]+/lang/en_us\.json$` with
`re.IGNORECASE` (translator_advance.py line 27). -/
def matchesTranslate (p : List Char) : Bool :=
  match splitSlash (toLowerList p) with
  | [root, ns, langDir, fname] =>
      (root == str "assets" || root == str "data") && !ns.isEmpty &&
        langDir == str "lang" && fname == str "en_us.json"
  | _ => false

/-- `extract_mod_id` (both source files): second slash segment when the
path has at least three segments and that segment is nonempty,
otherwise `"unknown"`. -/
def extract_mod_id (p : List Char) : List Char :=
  match splitSlash p with
  | _ :: second :: _ :: _ => if second.isEmpty then str "unknown" else second
  | _ => str "unknown"

/-- `extract_lang_code` (both source files): basename without its
extension. -/
def extract_lang_code (p : List Char) : List Char :=
  splitextStem (pyBasename p)

/-- The reference-language filename token of the mutator. -/
def enUsTok : List Char := str "en_us.json"

/-- The target-language filename token of the mutator. -/
def jaJpTok : List Char := str "ja_jp.json"

/-- Derived translated path (translator_advance.py line 147):
`original_path.replace(en_us.json, ja_jp.json)` with plain-string arguments. -/
def ja_jp_path (p : List Char) : List Char := pyReplace enUsTok jaJpTok p

/-! ## Archive data model

An archive (jar) is a finite list of named entries.  Raw entry bytes
have an opaque type `β`; UTF-8 decoding (Python bytes decode with codec utf-8) and
JSON parsing / serialization (`json.loads` / `json.dumps`) are external
library calls and appear as explicit function parameters.  Parsed
language resources are flat string-to-string mappings, the resource
format of this domain. -/

/-- Parsed language mapping: association list of key / value strings,
in source order. -/
abbrev LangMap := List (List Char × List Char)

/-- Keys of a mapping, as a finite set. -/
def mapKeys (m : LangMap) : Finset (List Char) := m.foldr (fun kv s => insert kv.1 s) ∅

/-- One zip member: name, raw data, uncompressed size
(`file_info.filename`, bytes, `file_info.file_size`). -/
structure ZipEntry (β : Type) where
  filename : List Char
  data : β
  fileSize : Nat
deriving DecidableEq

/-- Outcome of one attempt to read an archive file.  In the source the
whole locator loop runs inside one try block whose except handlers fall
through to `return language_files`, so three outcomes exist:
`ok entries` — the open succeeds and every member read succeeds;
`badZip` — the open itself raises `zipfile.BadZipFile`, before anything
is accumulated; `readError entries` — the open succeeds, the listed
members are iterated normally, and then an unexpected exception (for
example a corrupt or encrypted matched member whose `jar.read` raises)
aborts the loop, so exactly the results accumulated from `entries` are
returned.  The failing member itself yields nothing and is not part of
`entries`. -/
inductive JarData (β : Type) where
  | ok (entries : List (ZipEntry β))
  | badZip
  | readError (entries : List (ZipEntry β))
deriving DecidableEq

/-- Record built by `find_language_files_in_jar` in translator_advance.py
(per matched entry: path, parsed content, mod id, language code). -/
structure LangFileAdv where
  path : List Char
  content : LangMap
  mod_id : List Char
  lang_code : List Char
deriving DecidableEq

/-- Record built by `find_language_files_in_jar` in tranlator.py
(per matched entry: path, size, mod id, language code; content is
checked but not retained). -/
structure LangFileDisc where
  path : List Char
  size : Nat
  mod_id : List Char
  lang_code : List Char
deriving DecidableEq

/-! ## Archive Entry Locator -/

/-- Per-entry body of the translation-mode locator loop
(translator_advance.py lines 23-41): pattern test, then decode and
parse, skipping the entry when either fails. -/
def processEntryAdv {β : Type} (decodeUtf8 : β → Option (List Char))
    (jsonLoads : List Char → Option LangMap) (e : ZipEntry β) : Option LangFileAdv :=
  if matchesTranslate e.filename then
    match (decodeUtf8 e.data).bind jsonLoads with
    | some j => some ⟨e.filename, j, extract_mod_id e.filename, extract_lang_code e.filename⟩
    | none => none
  else none

/-- `find_language_files_in_jar` of translator_advance.py: yields the
matched, parseable `en_us` entries in listing order.  A bad zip is
reported and yields the empty list; an unexpected mid-read failure is
reported and yields the records accumulated before the failure point —
the except handler falls through to `return language_files`, it does
not discard them. -/
def find_language_files_adv {β : Type} (decodeUtf8 : β → Option (List Char))
    (jsonLoads : List Char → Option LangMap) : JarData β → List LangFileAdv
  | .ok es => es.filterMap (processEntryAdv decodeUtf8 jsonLoads)
  | .badZip => []
  | .readError es => es.filterMap (processEntryAdv decodeUtf8 jsonLoads)

/-- Per-entry body of the discovery locator loop (tranlator.py
lines 23-46): pattern test, then decode and parse for validation only. -/
def processEntryDisc {β : Type} (decodeUtf8 : β → Option (List Char))
    (jsonLoads : List Char → Option LangMap) (e : ZipEntry β) : Option LangFileDisc :=
  if matchesDiscovery e.filename then
    match (decodeUtf8 e.data).bind jsonLoads with
    | some _ => some ⟨e.filename, e.fileSize, extract_mod_id e.filename,
        extract_lang_code e.filename⟩
    | none => none
  else none

/-- `find_language_files_in_jar` of tranlator.py, with the same
fall-through error handling: a failed open yields nothing, a mid-read
failure yields the records accumulated so far. -/
def find_language_files_disc {β : Type} (decodeUtf8 : β → Option (List Char))
    (jsonLoads : List Char → Option LangMap) : JarData β → List LangFileDisc
  | .ok es => es.filterMap (processEntryDisc decodeUtf8 jsonLoads)
  | .badZip => []
  | .readError es => es.filterMap (processEntryDisc decodeUtf8 jsonLoads)

/-- `scan_directory_for_mods` of tranlator.py: scan every jar of the
directory in listing order and record, for each jar with a nonempty
result, its path and its language files (Python dict in insertion
order). -/
def scan_directory_for_mods {β : Type} (decodeUtf8 : β → Option (List Char))
    (jsonLoads : List Char → Option LangMap)
    (jars : List (List Char × JarData β)) : List (List Char × List LangFileDisc) :=
  jars.filterMap (fun pd =>
    let lfs := find_language_files_disc decodeUtf8 jsonLoads pd.2
    if lfs.isEmpty then none else some (pd.1, lfs))

/-! ## Discovery scan as a trace of filesystem operations

For the frame claim about the discovery-only scan the relevant code
(tranlator.py lines 14-111) is rendered as the sequence of filesystem
operations it performs: an `openRead` per archive
(the read-mode ZipFile open of jar_path) and a `readEntry` per
pattern-matched member (`jar.read(file_info)`); the scan contains no
write, copy or move call.  Write-like operations exist in the operation
type so that "the scan leaves every file unchanged" is a statement
about a filesystem semantics, not a tautology of the trace type. -/

inductive FSOp where
  | openRead (p : List Char)
  | readEntry (jarPath entryName : List Char)
  | writeFile (p content : List Char)
  | copyFile (src dst : List Char)
  | moveFile (src dst : List Char)
deriving DecidableEq

/-- Filesystem: association of file paths to file contents. -/
abbrev FileSys := List (List Char × List Char)

def setFile (p c : List Char) : FileSys → FileSys
  | [] => [(p, c)]
  | e :: rest => if e.1 = p then (p, c) :: rest else e :: setFile p c rest

def getFile (p : List Char) : FileSys → Option (List Char)
  | [] => none
  | e :: rest => if e.1 = p then some e.2 else getFile p rest

/-- Effect of one operation on the filesystem: reads are identities,
writes / copies / moves change it. -/
def applyOp (fs : FileSys) : FSOp → FileSys
  | .openRead _ => fs
  | .readEntry _ _ => fs
  | .writeFile p c => setFile p c fs
  | .copyFile src dst =>
      match getFile src fs with
      | some c => setFile dst c fs
      | none => fs
  | .moveFile src dst =>
      match getFile src fs with
      | some c => setFile dst c (setFile src (str "") fs)
      | none => fs

def applyOps (fs : FileSys) (ops : List FSOp) : FileSys := ops.foldl applyOp fs

/-- Operations performed by `find_language_files_in_jar` (tranlator.py)
on one archive: the read-only open, then one read per matched member;
for a bad zip only the open is observed, and for a mid-read failure the
reads completed before the failure point (the aborted read attempt of
the failing member is itself a read and performs no write either). -/
def find_disc_ops {β : Type} (p : List Char) : JarData β → List FSOp
  | .ok es => FSOp.openRead p ::
      es.filterMap (fun e =>
        if matchesDiscovery e.filename then some (FSOp.readEntry p e.filename) else none)
  | .badZip => [FSOp.openRead p]
  | .readError es => FSOp.openRead p ::
      es.filterMap (fun e =>
        if matchesDiscovery e.filename then some (FSOp.readEntry p e.filename) else none)

/-- Operations performed by `scan_directory_for_mods`: the per-archive
operations in directory order, nothing else. -/
def scan_ops {β : Type} (jars : List (List Char × JarData β)) : List FSOp :=
  jars.flatMap (fun pd => find_disc_ops pd.1 pd.2)

def isReadOnlyOp : FSOp → Bool
  | .openRead _ => true
  | .readEntry _ _ => true
  | _ => false

/-! ## Translation Orchestrator: response handling -/

def tickJson : List Char := str "```json"

def tick : List Char := str "```"

/-- Payload extraction of translator_advance.py lines 112-124: when the
reply contains a fenced block tagged json, take the stripped text
between the tag and the next fence; otherwise, when it contains any
fence, take the stripped text between the first fence and the next one;
a fence opener without a later closer leaves the whole reply in place. -/
def extract_payload (t : List Char) : List Char :=
  match findIdx tickJson t with
  | some i =>
      let rest := t.drop (i + 7)
      match findIdx tick rest with
      | some e => pyStrip (rest.take e)
      | none => t
  | none =>
      match findIdx tick t with
      | some i =>
          let rest := t.drop (i + 3)
          match findIdx tick rest with
          | some e => pyStrip (rest.take e)
          | none => t
      | none => t

/-- Definition following the words of the specification (section 4.3):
the text between the leftmost
fence and the next fence when the reply contains a fence, the whole
text otherwise — the first fenced block being
the one opened by the leftmost fence.  Kept for comparison with the
`extract_payload` of the source; stripping matches the source so that the
comparison isolates which block is chosen. -/
def specFirstFencedPayload (t : List Char) : List Char :=
  match findIdx tick t with
  | some i =>
      let rest := t.drop (i + 3)
      match findIdx tick rest with
      | some e => pyStrip (rest.take e)
      | none => t
  | none => t

/-- Response handling of `translate_json_with_gemini`
(translator_advance.py lines 108-138): `none` models a transport
failure or an absent reply (`response.text` falsy also covers the empty
string); otherwise the payload is extracted from the reply and parsed,
a parse failure giving `None` rather than an exception. -/
def translate_json_with_gemini (jsonLoads : List Char → Option LangMap)
    (responseText : Option (List Char)) : Option LangMap :=
  match responseText with
  | none => none
  | some t => if t.isEmpty then none else jsonLoads (extract_payload t)

/-! ## Archive Mutator

`save_translated_json_to_jar` (translator_advance.py lines 140-179)
works on one archive: copy it to a private temporary file, append the
serialized translation to the copy, create the `.backup` sibling from
the still-untouched original if none exists, then move the copy over
the original.  Every step runs inside one `try`; any failure prints and
returns `False`.  Failures of the individual steps are modelled by an
injected failure point; the temporary file lives in a
`tempfile.TemporaryDirectory` and is dropped in every outcome, so it
does not appear in the visible state.

The final step is `shutil.move(temp_jar_path, jar_path)`.  It first
tries `os.rename`, which replaces the destination atomically; when the
rename is unavailable — always on Windows because the destination
exists, and on POSIX whenever the temporary directory (by default under
the system temp location) is on a different filesystem — it falls back
to `copy2` followed by `unlink`, and `copy2` opens the destination for
writing, truncating the original archive before rewriting it.  A
failure during that fallback copy therefore leaves the original archive
truncated or partially rewritten — corrupted, no longer readable as a
zip — while still being caught and reported as `False`.  The model
keeps both replace-failure modes: `moveBack` fails before the original
is touched (the rename raises and the fallback stops before opening the
destination), `moveBackDirty` fails after the fallback copy has begun
rewriting the original. -/

/-- Steps of the mutator at which a failure can occur, in source
order. -/
inductive SaveStep where
  | mkTemp        -- creating the temporary directory
  | copyToTemp    -- `shutil.copy2(jar_path, temp_jar_path)`
  | appendEntry   -- `zipfile.ZipFile(temp_jar_path, 'a')` / `writestr`
  | makeBackup    -- `shutil.copy2(jar_path, backup_path)`
  | moveBack      -- `shutil.move` fails before the original is touched
  | moveBackDirty -- `shutil.move` falls back to copy and fails mid-write
deriving DecidableEq

/-- Visible state of one archive: the archive file itself and its
optional `.backup` sibling. -/
structure JarEnv (β : Type) where
  data : JarData β
  backup : Option (JarData β)
deriving DecidableEq

/-- `save_translated_json_to_jar`: returns the Python result
(`True` / `False`) and the new visible state.  `content` is the raw
data written for the new member (in the pipeline,
the utf-8 encoding of json.dumps of the translated mapping);
`contentSize` its byte length as recorded by `writestr`.  A
`moveBackDirty` failure leaves the original archive in the corrupted
`badZip` state (a truncated file is not a readable zip); both replace
failures happen after the backup block, so a backup created in the same
call persists. -/
def save_translated_json_to_jar {β : Type} (failAt : Option SaveStep) (env : JarEnv β)
    (originalPath : List Char) (content : β) (contentSize : Nat) : Bool × JarEnv β :=
  let japath := ja_jp_path originalPath
  if failAt = some .mkTemp || failAt = some .copyToTemp then (false, env)
  else
    match env.data with
    | .ok es =>
      if failAt = some .appendEntry then (false, env)
      else
        let temp := es ++ [⟨japath, content, contentSize⟩]
        match env.backup with
        | none =>
            if failAt = some .makeBackup then (false, env)
            else if failAt = some .moveBack then (false, { env with backup := some env.data })
            else if failAt = some .moveBackDirty then
              (false, { data := .badZip, backup := some env.data })
            else (true, { data := .ok temp, backup := some env.data })
        | some _ =>
            if failAt = some .moveBack then (false, env)
            else if failAt = some .moveBackDirty then (false, { env with data := .badZip })
            else (true, { env with data := .ok temp })
    | _ => (false, env)  -- opening the copied file in append mode raises

/-! ## Translation pipeline (`translate_mod_files`)

The outer loop of translator_advance.py lines 181-242, over the jars of
the directory in listing order and, per jar, over its discovered
`en_us` files in archive order.  External effects appear as parameters:
`respond k` is the reply text of the k-th boundary call (`none`: the
call raised or the reply had no text), `failPlan k` injects a mutator
failure into the save of the k-th file.  The run records an event trace
of boundary calls and rate-limit sleeps. -/

/-- Fixed inter-call delay, translator_advance.py line 15
(`self.translation_delay = 1`). -/
def translation_delay : Nat := 1

inductive Ev where
  | apiCall
  | sleepFor (seconds : Nat)
deriving DecidableEq

/-- Mutable counters and the event trace of a run
(`total_files`, `successful_translations`, plus the observable calls
and sleeps in order). -/
structure RunSt where
  total : Nat
  succ : Nat
  events : List Ev
deriving DecidableEq

/-- Number of language files the translation-mode locator currently
finds in one archive; used by the sleep guard, which rescans every
archive (translator_advance.py line 232). -/
def jarCount {β : Type} (decodeUtf8 : β → Option (List Char))
    (jsonLoads : List Char → Option LangMap) (env : JarEnv β) : Nat :=
  (find_language_files_adv decodeUtf8 jsonLoads env.data).length

def sumCounts {β : Type} (decodeUtf8 : β → Option (List Char))
    (jsonLoads : List Char → Option LangMap) (jars : List (List Char × JarEnv β)) : Nat :=
  (jars.map (fun pe => jarCount decodeUtf8 jsonLoads pe.2)).sum

/-- Body of the inner loop for one discovered language file
(translator_advance.py lines 211-234): count it, call the boundary,
on a truthy result save into the current jar, then sleep when the
running count is below the rescanned total. -/
def stepFile {β : Type} (decodeUtf8 : β → Option (List Char))
    (jsonLoads : List Char → Option LangMap) (jsonDumps : LangMap → List Char)
    (encodeUtf8 : List Char → β) (byteLen : List Char → Nat)
    (respond : Nat → Option (List Char)) (failPlan : Nat → Option SaveStep)
    (done rest : List (List Char × JarEnv β)) (cur : JarEnv β) (st : RunSt)
    (lf : LangFileAdv) : JarEnv β × RunSt :=
  let total := st.total + 1
  let translated := translate_json_with_gemini jsonLoads (respond st.total)
  let saved : JarEnv β × Nat :=
    match translated with
    | some m =>
        if m.isEmpty then (cur, st.succ)  -- falsy: empty mapping is not saved
        else
          let serialized := jsonDumps m
          let r := save_translated_json_to_jar (failPlan st.total) cur lf.path
            (encodeUtf8 serialized) (byteLen serialized)
          (r.2, if r.1 then st.succ + 1 else st.succ)
    | none => (cur, st.succ)
  let remainingTotal :=
    sumCounts decodeUtf8 jsonLoads done + jarCount decodeUtf8 jsonLoads saved.1 +
      sumCounts decodeUtf8 jsonLoads rest
  let evs := st.events ++ [Ev.apiCall] ++
    (if total < remainingTotal then [Ev.sleepFor translation_delay] else [])
  (saved.1, ⟨total, saved.2, evs⟩)

/-- Inner loop over the language files discovered in the current
archive. -/
def runFiles {β : Type} (decodeUtf8 : β → Option (List Char))
    (jsonLoads : List Char → Option LangMap) (jsonDumps : LangMap → List Char)
    (encodeUtf8 : List Char → β) (byteLen : List Char → Nat)
    (respond : Nat → Option (List Char)) (failPlan : Nat → Option SaveStep)
    (done rest : List (List Char × JarEnv β)) :
    JarEnv β → RunSt → List LangFileAdv → JarEnv β × RunSt
  | cur, st, [] => (cur, st)
  | cur, st, lf :: lfs =>
      let r := stepFile decodeUtf8 jsonLoads jsonDumps encodeUtf8 byteLen respond failPlan
        done rest cur st lf
      runFiles decodeUtf8 jsonLoads jsonDumps encodeUtf8 byteLen respond failPlan
        done rest r.1 r.2 lfs

/-- Outer loop over the archives.  `done` holds the already-processed
archives (in reverse order), `todo` the rest; the language files of the
current archive are located from its state at that moment, and only the
current archive is ever mutated. -/
def runJars {β : Type} (decodeUtf8 : β → Option (List Char))
    (jsonLoads : List Char → Option LangMap) (jsonDumps : LangMap → List Char)
    (encodeUtf8 : List Char → β) (byteLen : List Char → Nat)
    (respond : Nat → Option (List Char)) (failPlan : Nat → Option SaveStep)
    (done : List (List Char × JarEnv β)) (st : RunSt) :
    List (List Char × JarEnv β) → List (List Char × JarEnv β) × RunSt
  | [] => (done.reverse, st)
  | (p, env) :: rest =>
      let lfs := find_language_files_adv decodeUtf8 jsonLoads env.data
      let r := runFiles decodeUtf8 jsonLoads jsonDumps encodeUtf8 byteLen respond failPlan
        done rest env st lfs
      runJars decodeUtf8 jsonLoads jsonDumps encodeUtf8 byteLen respond failPlan
        ((p, r.1) :: done) r.2 rest

/-- `translate_mod_files`: process every jar of the directory; returns
the final archive states (in directory order) and the final counters
and event trace. -/
def translate_mod_files {β : Type} (decodeUtf8 : β → Option (List Char))
    (jsonLoads : List Char → Option LangMap) (jsonDumps : LangMap → List Char)
    (encodeUtf8 : List Char → β) (byteLen : List Char → Nat)
    (respond : Nat → Option (List Char)) (failPlan : Nat → Option SaveStep)
    (jars : List (List Char × JarEnv β)) : List (List Char × JarEnv β) × RunSt :=
  runJars decodeUtf8 jsonLoads jsonDumps encodeUtf8 byteLen respond failPlan [] ⟨0, 0, []⟩ jars

/-- Number of boundary calls in a trace. -/
def countCalls (evs : List Ev) : Nat := evs.countP (· = Ev.apiCall)

/-- Iterated mutation of one archive: apply
`save_translated_json_to_jar` (with no injected failure) once per
listed `(originalPath, content, size)` triple, in order. -/
def foldSaves {β : Type} (env : JarEnv β) : List (List Char × β × Nat) → JarEnv β
  | [] => env
  | (p, c, n) :: rest => foldSaves (save_translated_json_to_jar none env p c n).2 rest

/-- Whether every mutation of the iterated sequence reported success. -/
def foldSavesOk {β : Type} (env : JarEnv β) : List (List Char × β × Nat) → Bool
  | [] => true
  | (p, c, n) :: rest =>
      let r := save_translated_json_to_jar none env p c n
      r.1 && foldSavesOk r.2 rest

/-- Expected rate-limited trace for a run of `N` boundary calls overall:
`sleepPattern N k n` lists the calls numbered `k, …, k+n-1`, each
followed by one sleep of the configured delay except the last call of
the run. -/
def sleepPattern (N : Nat) : Nat → Nat → List Ev
  | _, 0 => []
  | k, n + 1 =>
      Ev.apiCall ::
        ((if k + 1 < N then [Ev.sleepFor translation_delay] else []) ++ sleepPattern N (k + 1) n)

/-- Test of the claim wording "a delay is enforced before each
translation request": every boundary call is preceded (anywhere earlier
in the trace) by at least one sleep. -/
def delayBeforeEachCall : Bool → List Ev → Bool
  | _, [] => true
  | _, Ev.sleepFor _ :: evs => delayBeforeEachCall true evs
  | seen, Ev.apiCall :: evs => seen && delayBeforeEachCall seen evs


/-! ## Concrete fixtures for counterexamples and witnesses

Raw bytes are instantiated as `List Char`; the external decoder is
total, the external JSON parser recognizes exactly the byte strings
occurring in the scenarios. -/

/-- Decoder instance for scenarios: every byte string decodes to
itself. -/
def fixDecode : List Char → Option (List Char) := some

/-- Parser instance for scenarios: `SRC` is the stored source mapping
with key `a`, `PAYB` is a reply mapping with the different key `b`;
everything else fails to parse. -/
def fixLoads : List Char → Option LangMap := fun s =>
  if s = str "SRC" then some [(str "a", str "x")]
  else if s = str "PAYB" then some [(str "b", str "y")]
  else none

/-- Serializer instance for scenarios. -/
def fixDumps : LangMap → List Char := fun m => str "D:" ++ (m.map (fun kv => kv.1 ++ kv.2)).flatten

/-- No injected mutator failure. -/
def noFail : Nat → Option SaveStep := fun _ => none

/-- The stored reference-language entry of the scenarios. -/
def fixEntry : ZipEntry (List Char) := ⟨str "assets/m1/lang/en_us.json", str "SRC", 3⟩

/-- A second reference-language entry, for the two-file scenarios. -/
def fixEntry2 : ZipEntry (List Char) := ⟨str "data/m2/lang/en_us.json", str "SRC", 3⟩

/-- One-entry archive with no backup sibling. -/
def fixJar1 : JarEnv (List Char) := ⟨.ok [fixEntry], none⟩

/-- Two-entry archive with no backup sibling. -/
def fixJar2 : JarEnv (List Char) := ⟨.ok [fixEntry, fixEntry2], none⟩

/-- Boundary reply for the key-mismatch scenario: a fenced block whose
payload parses to a mapping with key `b` instead of key `a`. -/
def fixRespondMismatch : Nat → Option (List Char) := fun _ => some (str "```json\nPAYB\n```")

/-- Boundary reply that fails to parse. -/
def fixRespondJunk : Nat → Option (List Char) := fun _ => some (str "JUNK")

/-- Reply holding an untagged fenced block (content `A`) followed by a
json-tagged fenced block (content `B`). -/
def fenceReplyTwoBlocks : List Char := str "```\nA\n```\n```json\nB\n```"

/-- Parser instance recognizing the payload candidates `A` and `B` of
`fenceReplyTwoBlocks`. -/
def fixLoads9 : List Char → Option LangMap := fun s =>
  if s = str "B" then some [(str "k", str "B")]
  else if s = str "A" then some [(str "k", str "A")]
  else none

/-- Key-mismatch run: one jar, one entry, reply with a different key. -/
def runMismatch : List (List Char × JarEnv (List Char)) × RunSt :=
  translate_mod_files fixDecode fixLoads fixDumps id List.length fixRespondMismatch noFail
    [(str "m.jar", fixJar1)]

/-- Two-file run whose boundary replies never parse. -/
def runTwoJunk : List (List Char × JarEnv (List Char)) × RunSt :=
  translate_mod_files fixDecode fixLoads fixDumps id List.length fixRespondJunk noFail
    [(str "m.jar", fixJar2)]


/-! ## Helper lemmas: prefixes, occurrences, replacement -/

lemma isPrefixOf_cons_cons (a b : Char) (as bs : List Char) :
    (a :: as).isPrefixOf (b :: bs) = (a == b && as.isPrefixOf bs) := rfl

lemma isPrefixOf_cons_nil (a : Char) (as : List Char) :
    (a :: as).isPrefixOf ([] : List Char) = false := rfl

lemma isPrefixOf_nil_left (l : List Char) : List.isPrefixOf [] l = true := by
  cases l <;> rfl

lemma head_ne_of_not_mem (c : Char) (xs : List Char) (d : Char) (h : d ∉ c :: xs) : c ≠ d :=
  fun hcd => h (by rw [← hcd]; exact List.mem_cons_self c xs)

lemma tail_not_mem (c : Char) (xs : List Char) (d : Char) (h : d ∉ c :: xs) : d ∉ xs :=
  fun hm => h (List.mem_cons_of_mem c hm)

lemma isPrefixOf_length_le (l₁ l₂ : List Char) (h : l₁.isPrefixOf l₂ = true) :
    l₁.length ≤ l₂.length := by
  induction l₁ generalizing l₂ with
  | nil => simp
  | cons a as ih =>
    cases l₂ with
    | nil => rw [isPrefixOf_cons_nil] at h; cases h
    | cons b bs =>
      rw [isPrefixOf_cons_cons, Bool.and_eq_true] at h
      have := ih bs h.2
      simpa using this

lemma isPrefixOf_self_append (l t : List Char) : l.isPrefixOf (l ++ t) = true := by
  induction l with
  | nil => exact isPrefixOf_nil_left t
  | cons a as ih => rw [List.cons_append, isPrefixOf_cons_cons, ih]; simp

lemma isPrefixOf_through_stop (needle : List Char) (stop : Char) :
    ∀ xs zs : List Char, stop ∉ needle →
      needle.isPrefixOf (xs ++ stop :: zs) = true → needle.isPrefixOf xs = true := by
  induction needle with
  | nil => intro xs _ _ _; exact isPrefixOf_nil_left xs
  | cons a n ih =>
    intro xs zs hstop h
    cases xs with
    | nil =>
      rw [List.nil_append, isPrefixOf_cons_cons, Bool.and_eq_true, beq_iff_eq] at h
      have : stop ∈ a :: n := by rw [← h.1]; exact List.mem_cons_self a n
      exact absurd this hstop
    | cons b bs =>
      rw [List.cons_append, isPrefixOf_cons_cons, Bool.and_eq_true] at h
      rw [isPrefixOf_cons_cons, Bool.and_eq_true]
      exact ⟨h.1, ih bs zs (tail_not_mem a n stop hstop) h.2⟩

lemma isPrefixOf_false_of_short_stop (needle xs zs : List Char) (stop : Char)
    (hstop : stop ∉ needle) (hlen : xs.length < needle.length) :
    needle.isPrefixOf (xs ++ stop :: zs) = false := by
  cases hb : needle.isPrefixOf (xs ++ stop :: zs)
  · rfl
  · have h1 := isPrefixOf_through_stop needle stop xs zs hstop hb
    have h2 := isPrefixOf_length_le needle xs h1
    omega

lemma findIdx_cons (needle : List Char) (c : Char) (s : List Char) :
    findIdx needle (c :: s) =
      if needle.isPrefixOf (c :: s) then some 0 else (findIdx needle s).map (· + 1) := rfl

lemma occursTok_false_cons (needle : List Char) (c : Char) (s : List Char)
    (h : occursTok needle (c :: s) = false) :
    needle.isPrefixOf (c :: s) = false ∧ occursTok needle s = false := by
  unfold occursTok at *
  rw [findIdx_cons] at h
  cases hp : needle.isPrefixOf (c :: s) with
  | true => rw [hp] at h; simp at h
  | false =>
    rw [hp] at h
    simp at h
    exact ⟨rfl, by simpa using h⟩

lemma occursTok_false_drop (needle s : List Char) (hne : needle ≠ [])
    (h : occursTok needle s = false) : ∀ i, needle.isPrefixOf (s.drop i) = false := by
  induction s with
  | nil =>
    intro i
    rw [List.drop_nil]
    cases needle with
    | nil => exact absurd rfl hne
    | cons a as => rfl
  | cons c s ih =>
    intro i
    have hcs := occursTok_false_cons needle c s h
    cases i with
    | zero => simpa using hcs.1
    | succ i => rw [List.drop_succ_cons]; exact ih hcs.2 i

lemma replaceGo_skip_step (needle repl : List Char) (k : Nat) (c : Char) (s : List Char) :
    replaceGo needle repl (k + 1) (c :: s) = replaceGo needle repl k s := rfl

lemma replaceGo_zero_cons (needle repl : List Char) (c : Char) (s : List Char) :
    replaceGo needle repl 0 (c :: s) =
      if needle.isPrefixOf (c :: s) then repl ++ replaceGo needle repl (needle.length - 1) s
      else c :: replaceGo needle repl 0 s := rfl

lemma replaceGo_skip_append (needle repl xs ys : List Char) :
    replaceGo needle repl xs.length (xs ++ ys) = replaceGo needle repl 0 ys := by
  induction xs with
  | nil => rfl
  | cons x xs ih => rw [List.cons_append, List.length_cons, replaceGo_skip_step, ih]

lemma replaceGo_head_miss (needle repl : List Char) (c : Char) (s : List Char)
    (h : needle.isPrefixOf (c :: s) = false) :
    replaceGo needle repl 0 (c :: s) = c :: replaceGo needle repl 0 s := by
  rw [replaceGo_zero_cons, if_neg]
  simp [h]

lemma replaceGo_match_head (needle repl after : List Char) (hne : needle ≠ []) :
    replaceGo needle repl 0 (needle ++ after) = repl ++ replaceGo needle repl 0 after := by
  cases hn : needle with
  | nil => exact absurd hn hne
  | cons a n =>
    have hp : (a :: n).isPrefixOf (a :: (n ++ after)) = true := by
      rw [← List.cons_append]
      exact isPrefixOf_self_append _ _
    rw [List.cons_append, replaceGo_zero_cons, if_pos hp]
    simp only [List.length_cons, Nat.add_sub_cancel]
    rw [replaceGo_skip_append]

lemma replaceGo_traverse (needle repl ys : List Char) :
    ∀ xs : List Char,
      (∀ i, i < xs.length → needle.isPrefixOf ((xs ++ ys).drop i) = false) →
      replaceGo needle repl 0 (xs ++ ys) = xs ++ replaceGo needle repl 0 ys := by
  intro xs
  induction xs with
  | nil => intro _; rfl
  | cons c xs ih =>
    intro h
    have h0 : needle.isPrefixOf (c :: (xs ++ ys)) = false := by
      have := h 0 (by simp)
      simpa using this
    have hrest : ∀ i, i < xs.length → needle.isPrefixOf ((xs ++ ys).drop i) = false := by
      intro i hi
      have := h (i + 1) (by simpa using Nat.succ_lt_succ hi)
      simpa using this
    rw [List.cons_append, replaceGo_head_miss _ _ _ _ h0, ih hrest, List.cons_append]

lemma noPrefix_in_segment (needle seg R : List Char) (hne : needle ≠ [])
    (hocc : occursTok needle seg = false) (hstop : '/' ∉ needle) :
    ∀ i, i < (seg ++ ['/']).length →
      needle.isPrefixOf (((seg ++ ['/']) ++ R).drop i) = false := by
  intro i hi
  have hi2 : i ≤ seg.length := by simp at hi; omega
  rw [List.append_assoc, List.singleton_append,
    List.drop_append_of_le_length hi2]
  cases hb : needle.isPrefixOf (seg.drop i ++ '/' :: R)
  · rfl
  · exfalso
    have h1 := isPrefixOf_through_stop needle '/' (seg.drop i) R hstop hb
    have h2 := occursTok_false_drop needle seg hne hocc i
    rw [h1] at h2
    cases h2

lemma noPrefix_in_short_segment (needle seg R : List Char) (hstop : '/' ∉ needle)
    (hlen : seg.length < needle.length) :
    ∀ i, i < (seg ++ ['/']).length →
      needle.isPrefixOf (((seg ++ ['/']) ++ R).drop i) = false := by
  intro i hi
  have hi2 : i ≤ seg.length := by simp at hi; omega
  rw [List.append_assoc, List.singleton_append,
    List.drop_append_of_le_length hi2]
  refine isPrefixOf_false_of_short_stop needle (seg.drop i) R '/' hstop ?_
  rw [List.length_drop]
  omega

/-! ## Helper lemmas: lowering and path splitting -/

lemma toLower_ne_slash (c : Char) (h : c ≠ '/') : c.toLower ≠ '/' := by
  unfold Char.toLower
  by_cases hr : c.toNat ≥ 65 ∧ c.toNat ≤ 90
  · rw [if_pos hr]
    intro heq
    have hv : Nat.isValidChar (c.toNat + 32) := by
      unfold Nat.isValidChar
      left
      omega
    have h1 : (Char.ofNat (c.toNat + 32)).toNat = c.toNat + 32 := by
      unfold Char.ofNat
      rw [dif_pos hv]
      rfl
    rw [heq] at h1
    have h2 : ('/').toNat = 47 := by decide
    omega
  · rw [if_neg hr]
    exact h

lemma toLowerList_no_slash (s : List Char) (h : '/' ∉ s) : '/' ∉ toLowerList s := by
  unfold toLowerList
  intro hm
  rcases List.mem_map.mp hm with ⟨c, hc, hlow⟩
  exact toLower_ne_slash c (fun hcs => h (hcs ▸ hc)) hlow

lemma splitSlash_cons (c : Char) (rest : List Char) :
    splitSlash (c :: rest) =
      match splitSlash rest with
      | [] => [[]]
      | seg :: segs => if c == '/' then [] :: seg :: segs else (c :: seg) :: segs := rfl

lemma splitSlash_ne_nil (s : List Char) : splitSlash s ≠ [] := by
  cases s with
  | nil => simp [splitSlash]
  | cons c rest =>
    rw [splitSlash_cons]
    cases splitSlash rest with
    | nil => simp
    | cons seg segs =>
      by_cases hc : c == '/'
      · simp [hc]
      · simp [hc]

lemma splitSlash_append_slash (ys : List Char) :
    ∀ xs : List Char, '/' ∉ xs → splitSlash (xs ++ '/' :: ys) = xs :: splitSlash ys := by
  intro xs
  induction xs with
  | nil =>
    intro _
    rw [List.nil_append, splitSlash_cons]
    cases h : splitSlash ys with
    | nil => exact absurd h (splitSlash_ne_nil ys)
    | cons seg segs => simp
  | cons c xs ih =>
    intro hxs
    have hc : c ≠ '/' := head_ne_of_not_mem c xs '/' hxs
    rw [List.cons_append, splitSlash_cons, ih (tail_not_mem c xs '/' hxs)]
    simp [hc]

lemma splitSlash_no_slash (xs : List Char) (h : '/' ∉ xs) : splitSlash xs = [xs] := by
  induction xs with
  | nil => rfl
  | cons c xs ih =>
    have hc : c ≠ '/' := head_ne_of_not_mem c xs '/' h
    rw [splitSlash_cons, ih (tail_not_mem c xs '/' h)]
    simp [hc]

lemma toLowerList_append (s t : List Char) :
    toLowerList (s ++ t) = toLowerList s ++ toLowerList t := by
  unfold toLowerList
  exact List.map_append _ _ _

/-! ## Claim C5: derived translated path -/

/-- C5 counterexample: the claim says the derived path leaves the root
and namespace segments unchanged, but the source derives the path with
a global substring replacement, so a namespace containing the token
`en_us.json` is rewritten as well.  The path
`assets/en_us.jsonx/lang/en_us.json` is matched in translation mode,
yet its derived path changes the namespace segment to `ja_jp.jsonx`
instead of keeping `en_us.jsonx`. -/
theorem C5_counterexample :
    matchesTranslate (str "assets/en_us.jsonx/lang/en_us.json") = true ∧
    ja_jp_path (str "assets/en_us.jsonx/lang/en_us.json")
      = str "assets/ja_jp.jsonx/lang/ja_jp.json" ∧
    ja_jp_path (str "assets/en_us.jsonx/lang/en_us.json")
      ≠ str "assets/en_us.jsonx/lang/ja_jp.json" := by
  exact ⟨by decide, by decide, by decide⟩

/-- C5 (amended): for every matched original path whose namespace
segment does not itself contain the token `en_us.json` (and whose
filename token is lowercase, as the token is written in the source),
the derived translated path is the original path with the filename
token `en_us.json` replaced by `ja_jp.json`, the root and namespace
segments unchanged. -/
theorem C5_amended (root ns : List Char)
    (hroot : root = str "assets" ∨ root = str "data")
    (hns : ns ≠ []) (hslash : '/' ∉ ns) (hocc : occursTok enUsTok ns = false) :
    matchesTranslate
        ((root ++ ['/']) ++ ((ns ++ ['/']) ++ ((str "lang" ++ ['/']) ++ enUsTok))) = true ∧
    ja_jp_path ((root ++ ['/']) ++ ((ns ++ ['/']) ++ ((str "lang" ++ ['/']) ++ enUsTok)))
      = (root ++ ['/']) ++ ((ns ++ ['/']) ++ ((str "lang" ++ ['/']) ++ jaJpTok)) := by
  have hstop : '/' ∉ enUsTok := by decide
  have hne : enUsTok ≠ [] := by decide
  have hrootlen : root.length < enUsTok.length := by
    rcases hroot with h | h <;> rw [h] <;> decide
  constructor
  · have hnsl : '/' ∉ toLowerList ns := toLowerList_no_slash ns hslash
    have hnse : (toLowerList ns).isEmpty = false := by
      cases ns with
      | nil => exact absurd rfl hns
      | cons a l => rfl
    have hlow1 : toLowerList ['/'] = ['/'] := by decide
    have hlow2 : toLowerList (str "lang") = str "lang" := by decide
    have hlow3 : toLowerList enUsTok = str "en_us.json" := by decide
    have hsplit : splitSlash (toLowerList
        ((root ++ ['/']) ++ ((ns ++ ['/']) ++ ((str "lang" ++ ['/']) ++ enUsTok))))
        = [toLowerList root, toLowerList ns, str "lang", str "en_us.json"] := by
      rw [toLowerList_append, toLowerList_append, toLowerList_append, toLowerList_append,
        toLowerList_append, toLowerList_append, hlow1, hlow2, hlow3]
      simp only [List.append_assoc, List.singleton_append]
      have hrl : '/' ∉ toLowerList root := by
        rcases hroot with h | h <;> rw [h] <;> decide
      rw [splitSlash_append_slash _ (toLowerList root) hrl,
        splitSlash_append_slash _ (toLowerList ns) hnsl,
        splitSlash_append_slash _ (str "lang") (by decide),
        splitSlash_no_slash (str "en_us.json") (by decide)]
    unfold matchesTranslate
    rw [hsplit]
    have hrootok : (toLowerList root == str "assets" || toLowerList root == str "data") = true := by
      rcases hroot with h | h <;> rw [h] <;> decide
    simp [hrootok, hnse]
  · unfold ja_jp_path pyReplace
    rw [replaceGo_traverse enUsTok jaJpTok _ (root ++ ['/'])
      (noPrefix_in_short_segment enUsTok root _ hstop hrootlen)]
    rw [replaceGo_traverse enUsTok jaJpTok _ (ns ++ ['/'])
      (noPrefix_in_segment enUsTok ns _ hne hocc hstop)]
    rw [replaceGo_traverse enUsTok jaJpTok _ (str "lang" ++ ['/'])
      (noPrefix_in_short_segment enUsTok (str "lang") _ hstop (by decide))]
    have hfin : replaceGo enUsTok jaJpTok 0 enUsTok = jaJpTok := by decide
    rw [hfin]

/-- C5 witness: the amended statement evaluated on the example path of the specification, `assets/foo/lang/en_us.json`. -/
theorem C5_witness :
    matchesTranslate
        ((str "assets" ++ ['/']) ++ ((str "foo" ++ ['/']) ++ ((str "lang" ++ ['/']) ++ enUsTok)))
        = true ∧
    ja_jp_path
        ((str "assets" ++ ['/']) ++ ((str "foo" ++ ['/']) ++ ((str "lang" ++ ['/']) ++ enUsTok)))
      = (str "assets" ++ ['/']) ++ ((str "foo" ++ ['/']) ++ ((str "lang" ++ ['/']) ++ jaJpTok)) :=
  C5_amended (str "assets") (str "foo") (Or.inl rfl) (by decide) (by decide) (by decide)

/-! ## Helper lemmas: the mutator -/

lemma save_none_fresh {β : Type} (es : List (ZipEntry β)) (p : List Char) (c : β) (n : Nat) :
    save_translated_json_to_jar none ⟨.ok es, none⟩ p c n
      = (true, ⟨.ok (es ++ [⟨ja_jp_path p, c, n⟩]), some (.ok es)⟩) := by
  unfold save_translated_json_to_jar
  simp

lemma save_none_kept {β : Type} (es : List (ZipEntry β)) (b : JarData β) (p : List Char)
    (c : β) (n : Nat) :
    save_translated_json_to_jar none ⟨.ok es, some b⟩ p c n
      = (true, ⟨.ok (es ++ [⟨ja_jp_path p, c, n⟩]), some b⟩) := by
  unfold save_translated_json_to_jar
  simp

lemma save_fail_data {β : Type} (failAt : Option SaveStep) (env : JarEnv β) (p : List Char)
    (c : β) (n : Nat) (hclean : failAt ≠ some SaveStep.moveBackDirty)
    (h : (save_translated_json_to_jar failAt env p c n).1 = false) :
    (save_translated_json_to_jar failAt env p c n).2.data = env.data := by
  rcases env with ⟨data, backup⟩
  unfold save_translated_json_to_jar at *
  rcases failAt with _ | s
  · cases data <;> cases backup <;> simp_all
  · cases s <;> cases data <;> cases backup <;> simp_all

lemma save_backup_kept {β : Type} (failAt : Option SaveStep)
    (d : JarData β) (b : JarData β) (p : List Char) (c : β) (n : Nat) :
    (save_translated_json_to_jar failAt ⟨d, some b⟩ p c n).2.backup = some b := by
  unfold save_translated_json_to_jar
  rcases failAt with _ | s
  · cases d <;> simp
  · cases s <;> cases d <;> simp

lemma save_success_shape {β : Type} (failAt : Option SaveStep) (env : JarEnv β) (p : List Char)
    (c : β) (n : Nat) (h : (save_translated_json_to_jar failAt env p c n).1 = true) :
    ∃ es : List (ZipEntry β), env.data = .ok es ∧
      (save_translated_json_to_jar failAt env p c n).2.data
        = .ok (es ++ [⟨ja_jp_path p, c, n⟩]) := by
  rcases env with ⟨data, backup⟩
  unfold save_translated_json_to_jar at *
  rcases failAt with _ | s
  · cases data <;> cases backup <;> simp_all
  · cases s <;> cases data <;> cases backup <;> simp_all

/-! ## Claim C2: mutation failure, archive preservation, continuation -/

lemma countCalls_append (l₁ l₂ : List Ev) :
    countCalls (l₁ ++ l₂) = countCalls l₁ + countCalls l₂ := by
  unfold countCalls
  exact List.countP_append _ _ _

lemma countCalls_sleep_opt (cond : Prop) [Decidable cond] (n : Nat) :
    countCalls (if cond then [Ev.sleepFor n] else []) = 0 := by
  split <;> rfl

lemma stepFile_snd_total {β : Type} (decodeUtf8 : β → Option (List Char))
    (jsonLoads : List Char → Option LangMap) (jsonDumps : LangMap → List Char)
    (encodeUtf8 : List Char → β) (byteLen : List Char → Nat)
    (respond : Nat → Option (List Char)) (failPlan : Nat → Option SaveStep)
    (done rest : List (List Char × JarEnv β)) (cur : JarEnv β) (st : RunSt)
    (lf : LangFileAdv) :
    (stepFile decodeUtf8 jsonLoads jsonDumps encodeUtf8 byteLen respond failPlan
        done rest cur st lf).2.total = st.total + 1 := rfl

lemma stepFile_calls {β : Type} (decodeUtf8 : β → Option (List Char))
    (jsonLoads : List Char → Option LangMap) (jsonDumps : LangMap → List Char)
    (encodeUtf8 : List Char → β) (byteLen : List Char → Nat)
    (respond : Nat → Option (List Char)) (failPlan : Nat → Option SaveStep)
    (done rest : List (List Char × JarEnv β)) (cur : JarEnv β) (st : RunSt)
    (lf : LangFileAdv) :
    countCalls (stepFile decodeUtf8 jsonLoads jsonDumps encodeUtf8 byteLen respond failPlan
        done rest cur st lf).2.events = countCalls st.events + 1 := by
  show countCalls (st.events ++ [Ev.apiCall] ++ _) = countCalls st.events + 1
  rw [countCalls_append, countCalls_append, countCalls_sleep_opt]
  have h1 : countCalls [Ev.apiCall] = 1 := by decide
  omega

lemma runFiles_calls {β : Type} (decodeUtf8 : β → Option (List Char))
    (jsonLoads : List Char → Option LangMap) (jsonDumps : LangMap → List Char)
    (encodeUtf8 : List Char → β) (byteLen : List Char → Nat)
    (respond : Nat → Option (List Char)) (failPlan : Nat → Option SaveStep)
    (done rest : List (List Char × JarEnv β)) :
    ∀ (lfs : List LangFileAdv) (cur : JarEnv β) (st : RunSt),
      countCalls (runFiles decodeUtf8 jsonLoads jsonDumps encodeUtf8 byteLen respond failPlan
          done rest cur st lfs).2.events = countCalls st.events + lfs.length := by
  intro lfs
  induction lfs with
  | nil => intro cur st; simp [runFiles]
  | cons lf lfs ih =>
    intro cur st
    show countCalls (runFiles _ _ _ _ _ _ _ _ _ _ _ lfs).2.events = _
    rw [ih, stepFile_calls]
    simp [List.length_cons]
    omega

lemma runJars_calls {β : Type} (decodeUtf8 : β → Option (List Char))
    (jsonLoads : List Char → Option LangMap) (jsonDumps : LangMap → List Char)
    (encodeUtf8 : List Char → β) (byteLen : List Char → Nat)
    (respond : Nat → Option (List Char)) (failPlan : Nat → Option SaveStep) :
    ∀ (todo done : List (List Char × JarEnv β)) (st : RunSt),
      countCalls (runJars decodeUtf8 jsonLoads jsonDumps encodeUtf8 byteLen respond failPlan
          done st todo).2.events
        = countCalls st.events + sumCounts decodeUtf8 jsonLoads todo := by
  intro todo
  induction todo with
  | nil => intro done st; simp [runJars, sumCounts]
  | cons pe rest ih =>
    intro done st
    rcases pe with ⟨p, env⟩
    show countCalls (runJars _ _ _ _ _ _ _ _ _ rest).2.events = _
    rw [ih, runFiles_calls]
    have : (find_language_files_adv decodeUtf8 jsonLoads env.data).length
        = jarCount decodeUtf8 jsonLoads env := rfl
    rw [this]
    simp [sumCounts]
    omega

/-- C2 counterexample: the claim promises that a failure at any step
leaves the original archive byte-identical, but the final replace is
`shutil.move`, whose rename fallback (`copy2` then `unlink`) truncates
the original before rewriting it.  A replace failure during that
fallback copy returns `False` yet leaves the archive corrupted — here a
concrete mutation with the injected mid-copy failure changes the
archive from a readable one-entry zip to the corrupt state. -/
theorem C2_counterexample :
    (save_translated_json_to_jar (some SaveStep.moveBackDirty) fixJar1
        (str "assets/m1/lang/en_us.json") (str "X") 1).1 = false ∧
    (save_translated_json_to_jar (some SaveStep.moveBackDirty) fixJar1
        (str "assets/m1/lang/en_us.json") (str "X") 1).2.data ≠ fixJar1.data :=
  ⟨by decide, by decide⟩

/-- C2 (amended): a failure at any step up to and including a replace
failure that does not reach the original (steps one to four, and a
rename failure whose fallback stops before opening the destination)
leaves the archive byte-identical; every failure, including a corrupting
one, is reported as `False` rather than raised; and processing of the
remaining entries always continues — the number of boundary calls of a
whole run equals the number of discovered files, whatever failures the
injected plan produces.  Only a replace failure inside the fallback
copy of `shutil.move` can leave the archive altered (corrupted) rather
than byte-identical. -/
theorem C2_amended :
    (∀ (β : Type) (failAt : Option SaveStep) (env : JarEnv β) (p : List Char) (c : β) (n : Nat),
        failAt ≠ some SaveStep.moveBackDirty →
        (save_translated_json_to_jar failAt env p c n).1 = false →
        (save_translated_json_to_jar failAt env p c n).2.data = env.data) ∧
    (∀ (β : Type) (env : JarEnv β) (p : List Char) (c : β) (n : Nat),
        (save_translated_json_to_jar (some SaveStep.moveBackDirty) env p c n).1 = false) ∧
    (∀ (β : Type) (decodeUtf8 : β → Option (List Char))
        (jsonLoads : List Char → Option LangMap) (jsonDumps : LangMap → List Char)
        (encodeUtf8 : List Char → β) (byteLen : List Char → Nat)
        (respond : Nat → Option (List Char)) (failPlan : Nat → Option SaveStep)
        (jars : List (List Char × JarEnv β)),
        countCalls (translate_mod_files decodeUtf8 jsonLoads jsonDumps encodeUtf8 byteLen
            respond failPlan jars).2.events = sumCounts decodeUtf8 jsonLoads jars) := by
  refine ⟨?_, ?_, ?_⟩
  · intro β failAt env p c n hclean h
    exact save_fail_data failAt env p c n hclean h
  · intro β env p c n
    rcases env with ⟨data, backup⟩
    unfold save_translated_json_to_jar
    cases data <;> cases backup <;> simp
  · intro β decodeUtf8 jsonLoads jsonDumps encodeUtf8 byteLen respond failPlan jars
    unfold translate_mod_files
    rw [runJars_calls]
    simp [countCalls]

/-- C2 witness: an injected append-step failure on a concrete archive
reports `False` and leaves the archive data unchanged; a concrete
injected mid-copy replace failure reports `False`; and a concrete run
under an always-corrupting failure plan still performs one call per
discovered file. -/
theorem C2_witness :
    (save_translated_json_to_jar (some SaveStep.appendEntry) fixJar1
        (str "assets/m1/lang/en_us.json") (str "X") 1).1 = false ∧
    (save_translated_json_to_jar (some SaveStep.appendEntry) fixJar1
        (str "assets/m1/lang/en_us.json") (str "X") 1).2.data = fixJar1.data ∧
    (save_translated_json_to_jar (some SaveStep.moveBackDirty) fixJar2
        (str "assets/m1/lang/en_us.json") (str "X") 1).1 = false ∧
    countCalls (translate_mod_files fixDecode fixLoads fixDumps id List.length
        fixRespondMismatch (fun _ => some SaveStep.moveBackDirty)
        [(str "m.jar", fixJar2)]).2.events = sumCounts fixDecode fixLoads
        [(str "m.jar", fixJar2)] :=
  ⟨by decide,
    C2_amended.1 (List Char) (some SaveStep.appendEntry) fixJar1 _ _ _ (by decide) (by decide),
    C2_amended.2.1 (List Char) fixJar2 _ _ _,
    C2_amended.2.2 (List Char) fixDecode fixLoads fixDumps id List.length
      fixRespondMismatch (fun _ => some SaveStep.moveBackDirty) [(str "m.jar", fixJar2)]⟩

/-! ## Claim C3: the backup is created once, from the pristine archive -/

lemma foldSaves_kept {β : Type} (b : JarData β) :
    ∀ (ops : List (List Char × β × Nat)) (es : List (ZipEntry β)),
      (foldSaves ⟨.ok es, some b⟩ ops).backup = some b ∧
      foldSavesOk ⟨.ok es, some b⟩ ops = true := by
  intro ops
  induction ops with
  | nil => intro es; exact ⟨rfl, rfl⟩
  | cons op rest ih =>
    intro es
    rcases op with ⟨p, c, n⟩
    constructor
    · show (foldSaves (save_translated_json_to_jar none ⟨.ok es, some b⟩ p c n).2 rest).backup = _
      rw [save_none_kept]
      exact (ih _).1
    · show ((save_translated_json_to_jar none ⟨.ok es, some b⟩ p c n).1 && _) = true
      rw [save_none_kept]
      simp only [Bool.true_and]
      exact (ih (es ++ [⟨ja_jp_path p, c, n⟩])).2

/-- C3: starting from an archive with no `.backup` sibling, a sequence
of `N ≥ 1` mutations all succeeds, afterwards the backup exists and its
content is the archive content from before the first mutation, and any
mutation on an archive that already has a backup leaves that backup
exactly as it was (it is never recreated), even when the mutation
fails. -/
theorem C3_backup_pristine :
    (∀ (β : Type) (es : List (ZipEntry β)) (ops : List (List Char × β × Nat)), ops ≠ [] →
        foldSavesOk ⟨.ok es, none⟩ ops = true ∧
        (foldSaves ⟨.ok es, none⟩ ops).backup = some (.ok es)) ∧
    (∀ (β : Type) (failAt : Option SaveStep) (d b : JarData β) (p : List Char) (c : β) (n : Nat),
        (save_translated_json_to_jar failAt ⟨d, some b⟩ p c n).2.backup = some b) := by
  constructor
  · intro β es ops hne
    cases ops with
    | nil => exact absurd rfl hne
    | cons op rest =>
      rcases op with ⟨p, c, n⟩
      constructor
      · show ((save_translated_json_to_jar none ⟨.ok es, none⟩ p c n).1 && _) = true
        rw [save_none_fresh]
        simp only [Bool.true_and]
        exact (foldSaves_kept (.ok es) rest (es ++ [⟨ja_jp_path p, c, n⟩])).2
      · show (foldSaves (save_translated_json_to_jar none ⟨.ok es, none⟩ p c n).2 rest).backup = _
        rw [save_none_fresh]
        exact (foldSaves_kept (.ok es) rest (es ++ [⟨ja_jp_path p, c, n⟩])).1
  · intro β failAt d b p c n
    exact save_backup_kept failAt d b p c n

/-- C3 witness: two successive successful mutations of a concrete
archive leave a backup equal to the initial archive content. -/
theorem C3_witness :
    foldSavesOk ⟨.ok [fixEntry, fixEntry2], none⟩
        [(str "assets/m1/lang/en_us.json", str "X", 1),
         (str "data/m2/lang/en_us.json", str "Y", 1)] = true ∧
    (foldSaves (β := List Char) ⟨.ok [fixEntry, fixEntry2], none⟩
        [(str "assets/m1/lang/en_us.json", str "X", 1),
         (str "data/m2/lang/en_us.json", str "Y", 1)]).backup
      = some (.ok [fixEntry, fixEntry2]) :=
  C3_backup_pristine.1 (List Char) [fixEntry, fixEntry2] _ (by decide)

/-! ## Claim C4: a successful mutation appends exactly the translated entry -/

/-- C4: when the mutation reports success, the archive afterwards holds
every entry it held before, unchanged and in order, plus exactly one
new entry at the derived target-language path whose raw data is the
encoded serialization of the translated mapping (in the source,
the utf-8 encoding of json.dumps with ensure_ascii False and indent 2). -/
theorem C4_mutation_appends (β : Type) (encodeUtf8 : List Char → β)
    (jsonDumps : LangMap → List Char) (byteLen : List Char → Nat)
    (failAt : Option SaveStep) (env : JarEnv β) (p : List Char) (m : LangMap)
    (h : (save_translated_json_to_jar failAt env p (encodeUtf8 (jsonDumps m))
        (byteLen (jsonDumps m))).1 = true) :
    ∃ es : List (ZipEntry β), env.data = .ok es ∧
      (save_translated_json_to_jar failAt env p (encodeUtf8 (jsonDumps m))
          (byteLen (jsonDumps m))).2.data
        = .ok (es ++ [⟨ja_jp_path p, encodeUtf8 (jsonDumps m), byteLen (jsonDumps m)⟩]) :=
  save_success_shape failAt env p _ _ h

/-- C4 witness: the successful mutation of the key-mismatch scenario,
evaluated concretely. -/
theorem C4_witness :
    ∃ es : List (ZipEntry (List Char)), fixJar1.data = .ok es ∧
      (save_translated_json_to_jar none fixJar1 (str "assets/m1/lang/en_us.json")
          (id (fixDumps [(str "b", str "y")]))
          (List.length (fixDumps [(str "b", str "y")]))).2.data
        = .ok (es ++ [⟨ja_jp_path (str "assets/m1/lang/en_us.json"),
            id (fixDumps [(str "b", str "y")]), List.length (fixDumps [(str "b", str "y")])⟩]) :=
  C4_mutation_appends (List Char) id fixDumps List.length none fixJar1
    (str "assets/m1/lang/en_us.json") [(str "b", str "y")] (by decide)

/-! ## Helper lemmas: the locator -/

lemma processEntryAdv_eq_some {β : Type} (decodeUtf8 : β → Option (List Char))
    (jsonLoads : List Char → Option LangMap) (e : ZipEntry β) (lf : LangFileAdv)
    (h : processEntryAdv decodeUtf8 jsonLoads e = some lf) :
    matchesTranslate lf.path = true ∧ e.filename = lf.path ∧
      (decodeUtf8 e.data).bind jsonLoads = some lf.content := by
  unfold processEntryAdv at h
  by_cases hm : matchesTranslate e.filename = true
  · rw [if_pos hm] at h
    cases hb : (decodeUtf8 e.data).bind jsonLoads with
    | none => rw [hb] at h; cases h
    | some j =>
      rw [hb] at h
      cases h
      exact ⟨hm, rfl, rfl⟩
  · rw [if_neg hm] at h
    cases h

lemma processEntryDisc_eq_some {β : Type} (decodeUtf8 : β → Option (List Char))
    (jsonLoads : List Char → Option LangMap) (e : ZipEntry β) (lf : LangFileDisc)
    (h : processEntryDisc decodeUtf8 jsonLoads e = some lf) :
    matchesDiscovery lf.path = true ∧ e.filename = lf.path ∧ e.fileSize = lf.size ∧
      ∃ j, (decodeUtf8 e.data).bind jsonLoads = some j := by
  unfold processEntryDisc at h
  by_cases hm : matchesDiscovery e.filename = true
  · rw [if_pos hm] at h
    cases hb : (decodeUtf8 e.data).bind jsonLoads with
    | none => rw [hb] at h; cases h
    | some j =>
      rw [hb] at h
      cases h
      exact ⟨hm, rfl, rfl, j, rfl⟩
  · rw [if_neg hm] at h
    cases h

lemma processEntryAdv_none {β : Type} (decodeUtf8 : β → Option (List Char))
    (jsonLoads : List Char → Option LangMap) (e : ZipEntry β)
    (h : (decodeUtf8 e.data).bind jsonLoads = none) :
    processEntryAdv decodeUtf8 jsonLoads e = none := by
  unfold processEntryAdv
  by_cases hm : matchesTranslate e.filename = true
  · rw [if_pos hm, h]
  · rw [if_neg hm]

lemma processEntryDisc_none {β : Type} (decodeUtf8 : β → Option (List Char))
    (jsonLoads : List Char → Option LangMap) (e : ZipEntry β)
    (h : (decodeUtf8 e.data).bind jsonLoads = none) :
    processEntryDisc decodeUtf8 jsonLoads e = none := by
  unfold processEntryDisc
  by_cases hm : matchesDiscovery e.filename = true
  · rw [if_pos hm, h]
  · rw [if_neg hm]

/-! ## Claim C6: every yielded entry matches and parses; bad entries are skipped -/

/-- C6: in both locators, every yielded record has a path matching the
respective anchored grammar (the translation-mode one requires the
`en_us.json` filename) and stems from an archive member whose bytes
decode and parse; and a member whose path matches but whose bytes fail
UTF-8 decoding or JSON parsing is skipped — the locator result is as if
that member were absent, with no exception escaping (the locators are
total functions). -/
theorem C6_locator_yield_and_skip :
    (∀ (β : Type) (decodeUtf8 : β → Option (List Char))
        (jsonLoads : List Char → Option LangMap) (es : List (ZipEntry β)) (lf : LangFileAdv),
        lf ∈ find_language_files_adv decodeUtf8 jsonLoads (.ok es) →
        matchesTranslate lf.path = true ∧
          ∃ e ∈ es, e.filename = lf.path ∧
            (decodeUtf8 e.data).bind jsonLoads = some lf.content) ∧
    (∀ (β : Type) (decodeUtf8 : β → Option (List Char))
        (jsonLoads : List Char → Option LangMap)
        (pre post : List (ZipEntry β)) (e : ZipEntry β),
        matchesTranslate e.filename = true →
        (decodeUtf8 e.data).bind jsonLoads = none →
        find_language_files_adv decodeUtf8 jsonLoads (.ok (pre ++ e :: post))
          = find_language_files_adv decodeUtf8 jsonLoads (.ok (pre ++ post))) ∧
    (∀ (β : Type) (decodeUtf8 : β → Option (List Char))
        (jsonLoads : List Char → Option LangMap) (es : List (ZipEntry β)) (lf : LangFileDisc),
        lf ∈ find_language_files_disc decodeUtf8 jsonLoads (.ok es) →
        matchesDiscovery lf.path = true ∧
          ∃ e ∈ es, e.filename = lf.path ∧ e.fileSize = lf.size ∧
            ∃ j, (decodeUtf8 e.data).bind jsonLoads = some j) ∧
    (∀ (β : Type) (decodeUtf8 : β → Option (List Char))
        (jsonLoads : List Char → Option LangMap)
        (pre post : List (ZipEntry β)) (e : ZipEntry β),
        matchesDiscovery e.filename = true →
        (decodeUtf8 e.data).bind jsonLoads = none →
        find_language_files_disc decodeUtf8 jsonLoads (.ok (pre ++ e :: post))
          = find_language_files_disc decodeUtf8 jsonLoads (.ok (pre ++ post))) := by
  refine ⟨?_, ?_, ?_, ?_⟩
  · intro β decodeUtf8 jsonLoads es lf hmem
    unfold find_language_files_adv at hmem
    rcases List.mem_filterMap.mp hmem with ⟨e, he, hpe⟩
    have h3 := processEntryAdv_eq_some decodeUtf8 jsonLoads e lf hpe
    exact ⟨h3.1, e, he, h3.2.1, h3.2.2⟩
  · intro β decodeUtf8 jsonLoads pre post e _ hnone
    simp [find_language_files_adv, List.filterMap_append, List.filterMap_cons,
      processEntryAdv_none decodeUtf8 jsonLoads e hnone]
  · intro β decodeUtf8 jsonLoads es lf hmem
    unfold find_language_files_disc at hmem
    rcases List.mem_filterMap.mp hmem with ⟨e, he, hpe⟩
    have h3 := processEntryDisc_eq_some decodeUtf8 jsonLoads e lf hpe
    exact ⟨h3.1, e, he, h3.2.1, h3.2.2.1, h3.2.2.2⟩
  · intro β decodeUtf8 jsonLoads pre post e _ hnone
    simp [find_language_files_disc, List.filterMap_append, List.filterMap_cons,
      processEntryDisc_none decodeUtf8 jsonLoads e hnone]

/-- C6 witness: the yield part evaluated on a concrete one-entry
archive, and the skip part on an archive holding one matching but
unparseable member. -/
theorem C6_witness :
    (matchesTranslate (str "assets/m1/lang/en_us.json") = true ∧
      ∃ e ∈ [fixEntry], e.filename = str "assets/m1/lang/en_us.json" ∧
        (fixDecode e.data).bind fixLoads = some [(str "a", str "x")]) ∧
    find_language_files_adv fixDecode fixLoads
        (.ok ([fixEntry] ++ ⟨str "data/m2/lang/en_us.json", str "NOTJSON", 7⟩ :: []))
      = find_language_files_adv fixDecode fixLoads (.ok ([fixEntry] ++ [])) :=
  ⟨C6_locator_yield_and_skip.1 (List Char) fixDecode fixLoads [fixEntry]
      ⟨str "assets/m1/lang/en_us.json", [(str "a", str "x")], str "m1", str "en_us"⟩
      (by decide),
    C6_locator_yield_and_skip.2.1 (List Char) fixDecode fixLoads [fixEntry] []
      ⟨str "data/m2/lang/en_us.json", str "NOTJSON", 7⟩ (by decide) (by decide)⟩

/-! ## Claim C7: invalid archives and the continuation of the scan -/

/-- C7 counterexample: the claim says any unexpected failure while
reading an archive makes the locator yield nothing, but the except
handlers of both source functions fall through to
`return language_files`, so a failure that occurs after a matched
member was already processed returns that member.  Concretely, an
archive whose read aborts after one good `en_us` member yields a
one-element list, not the empty sequence, in both locators. -/
theorem C7_counterexample :
    find_language_files_disc fixDecode fixLoads (JarData.readError [fixEntry])
      = [⟨str "assets/m1/lang/en_us.json", 3, str "m1", str "en_us"⟩] ∧
    find_language_files_disc fixDecode fixLoads (JarData.readError [fixEntry]) ≠ [] ∧
    find_language_files_adv fixDecode fixLoads (JarData.readError [fixEntry]) ≠ [] :=
  ⟨by decide, by decide, by decide⟩

/-- C7 (amended): an archive-open failure (not a valid archive) makes
either locator yield the empty list; an unexpected failure later, while
reading, makes it yield exactly the records accumulated before the
failure point — the same records the locator would yield for an archive
holding just the members read so far, possibly a nonempty list — and in
both cases no exception escapes (the locators are total).  The outer
scan always continues past the failed archive: the directory scan over
any surrounding archives decomposes into the scan before it, its own
contribution, and the scan after it, and an archive that yields nothing
contributes nothing. -/
theorem C7_amended :
    (∀ (β : Type) (decodeUtf8 : β → Option (List Char))
        (jsonLoads : List Char → Option LangMap),
        find_language_files_adv decodeUtf8 jsonLoads (JarData.badZip (β := β)) = [] ∧
        find_language_files_disc decodeUtf8 jsonLoads (JarData.badZip (β := β)) = []) ∧
    (∀ (β : Type) (decodeUtf8 : β → Option (List Char))
        (jsonLoads : List Char → Option LangMap) (es : List (ZipEntry β)),
        find_language_files_adv decodeUtf8 jsonLoads (JarData.readError es)
            = find_language_files_adv decodeUtf8 jsonLoads (JarData.ok es) ∧
        find_language_files_disc decodeUtf8 jsonLoads (JarData.readError es)
            = find_language_files_disc decodeUtf8 jsonLoads (JarData.ok es)) ∧
    (∀ (β : Type) (decodeUtf8 : β → Option (List Char))
        (jsonLoads : List Char → Option LangMap)
        (pre post : List (List Char × JarData β)) (p : List Char) (d : JarData β),
        scan_directory_for_mods decodeUtf8 jsonLoads (pre ++ (p, d) :: post)
          = scan_directory_for_mods decodeUtf8 jsonLoads (pre ++ [(p, d)])
            ++ scan_directory_for_mods decodeUtf8 jsonLoads post) ∧
    (∀ (β : Type) (decodeUtf8 : β → Option (List Char))
        (jsonLoads : List Char → Option LangMap)
        (pre post : List (List Char × JarData β)) (p : List Char) (d : JarData β),
        find_language_files_disc decodeUtf8 jsonLoads d = [] →
        scan_directory_for_mods decodeUtf8 jsonLoads (pre ++ (p, d) :: post)
          = scan_directory_for_mods decodeUtf8 jsonLoads (pre ++ post)) := by
  refine ⟨?_, ?_, ?_, ?_⟩
  · intro β decodeUtf8 jsonLoads
    exact ⟨rfl, rfl⟩
  · intro β decodeUtf8 jsonLoads es
    exact ⟨rfl, rfl⟩
  · intro β decodeUtf8 jsonLoads pre post p d
    have hsplit : pre ++ (p, d) :: post = (pre ++ [(p, d)]) ++ post := by
      rw [List.append_assoc, List.singleton_append]
    rw [hsplit]
    exact List.filterMap_append _ _ _
  · intro β decodeUtf8 jsonLoads pre post p d h
    simp [scan_directory_for_mods, List.filterMap_append, List.filterMap_cons, h]

/-- C7 witness: the amended statement evaluated concretely — a corrupt
archive in the middle of a directory contributes nothing and the rest
of the scan is unchanged, and a mid-read-failed archive yields the same
records as the archive truncated at the failure point. -/
theorem C7_witness :
    scan_directory_for_mods fixDecode fixLoads
        ([] ++ (str "bad.jar", JarData.badZip) :: [(str "a.jar", JarData.ok [fixEntry])])
      = scan_directory_for_mods fixDecode fixLoads
        ([] ++ [(str "a.jar", JarData.ok [fixEntry])]) ∧
    find_language_files_disc fixDecode fixLoads (JarData.readError [fixEntry])
      = find_language_files_disc fixDecode fixLoads (JarData.ok [fixEntry]) :=
  ⟨C7_amended.2.2.2 (List Char) fixDecode fixLoads []
      [(str "a.jar", JarData.ok [fixEntry])] (str "bad.jar") JarData.badZip rfl,
    (C7_amended.2.1 (List Char) fixDecode fixLoads [fixEntry]).2⟩

/-! ## Claim C10: the discovery scan performs only read operations -/

lemma mem_find_disc_ops_readonly {β : Type} (p : List Char) (d : JarData β) (op : FSOp)
    (h : op ∈ find_disc_ops p d) : isReadOnlyOp op = true := by
  cases d with
  | ok es =>
    rcases List.mem_cons.mp h with h1 | h2
    · rw [h1]; rfl
    · rcases List.mem_filterMap.mp h2 with ⟨e, _, he⟩
      by_cases hm : matchesDiscovery e.filename = true
      · rw [if_pos hm] at he
        cases he
        rfl
      · rw [if_neg hm] at he
        cases he
  | badZip =>
    rw [List.mem_singleton.mp h]
    rfl
  | readError es =>
    rcases List.mem_cons.mp h with h1 | h2
    · rw [h1]; rfl
    · rcases List.mem_filterMap.mp h2 with ⟨e, _, he⟩
      by_cases hm : matchesDiscovery e.filename = true
      · rw [if_pos hm] at he
        cases he
        rfl
      · rw [if_neg hm] at he
        cases he

lemma applyOp_readonly (fs : FileSys) (op : FSOp) (h : isReadOnlyOp op = true) :
    applyOp fs op = fs := by
  cases op with
  | openRead p => rfl
  | readEntry p e => rfl
  | writeFile p c => cases h
  | copyFile s d => cases h
  | moveFile s d => cases h

lemma applyOps_readonly (ops : List FSOp) (hall : ∀ op ∈ ops, isReadOnlyOp op = true) :
    ∀ fs : FileSys, applyOps fs ops = fs := by
  induction ops with
  | nil => intro fs; rfl
  | cons op ops ih =>
    intro fs
    show applyOps (applyOp fs op) ops = fs
    rw [applyOp_readonly fs op (hall op (List.mem_cons_self op ops))]
    exact ih (fun o ho => hall o (List.mem_cons_of_mem op ho)) fs

/-- C10: the discovery-only scan performs only read-only filesystem
operations — one read-only archive open per scanned file and one member
read per matched entry — so applying its operation trace to any
filesystem state leaves every file, in particular every archive,
unchanged; nothing is written, copied or moved by the scan itself. -/
theorem C10_scan_is_readonly :
    (∀ (β : Type) (jars : List (List Char × JarData β)) (fs : FileSys),
        applyOps fs (scan_ops jars) = fs) ∧
    (∀ (β : Type) (jars : List (List Char × JarData β)) (op : FSOp),
        op ∈ scan_ops jars → isReadOnlyOp op = true) ∧
    (∀ (β : Type) (jars : List (List Char × JarData β)) (pd : List Char × JarData β),
        pd ∈ jars → FSOp.openRead pd.1 ∈ scan_ops jars) := by
  have hro : ∀ (β : Type) (jars : List (List Char × JarData β)) (op : FSOp),
      op ∈ scan_ops jars → isReadOnlyOp op = true := by
    intro β jars op h
    unfold scan_ops at h
    rcases List.mem_flatMap.mp h with ⟨pd, _, hop⟩
    exact mem_find_disc_ops_readonly pd.1 pd.2 op hop
  refine ⟨?_, hro, ?_⟩
  · intro β jars fs
    exact applyOps_readonly (scan_ops jars) (hro β jars) fs
  · intro β jars pd hpd
    unfold scan_ops
    refine List.mem_flatMap.mpr ⟨pd, hpd, ?_⟩
    cases hd : pd.2 with
    | ok es => exact List.mem_cons_self _ _
    | badZip => exact List.mem_singleton.mpr rfl
    | readError es => exact List.mem_cons_self _ _

/-- C10 witness: the trace of a concrete two-archive scan (one good,
one corrupt) applied to a concrete filesystem, and its read-only
classification, evaluated via the theorem. -/
theorem C10_witness :
    applyOps [(str "m.jar", str "BYTES")]
        (scan_ops [(str "m.jar", JarData.ok [fixEntry]), (str "bad.jar", JarData.badZip)])
      = [(str "m.jar", str "BYTES")] ∧
    FSOp.openRead (str "bad.jar")
      ∈ scan_ops [(str "m.jar", JarData.ok [fixEntry]), (str "bad.jar", JarData.badZip)] :=
  ⟨C10_scan_is_readonly.1 (List Char)
      [(str "m.jar", JarData.ok [fixEntry]), (str "bad.jar", JarData.badZip)]
      [(str "m.jar", str "BYTES")],
    C10_scan_is_readonly.2.2 (List Char)
      [(str "m.jar", JarData.ok [fixEntry]), (str "bad.jar", JarData.badZip)]
      (str "bad.jar", JarData.badZip) (by decide)⟩

/-! ## Claim C1: key-set validation of translated mappings -/

/-- C1 counterexample: the stored source mapping has key set with the
single key `a`; the boundary reply parses to a mapping with the single
key `b`.  The claim requires this translation to be a failure with no
new archive entry, but the run accepts it (no key-set comparison exists
in the source), counts it as a successful translation and appends the
new entry to the archive. -/
theorem C1_counterexample :
    (fixDecode fixEntry.data).bind fixLoads = some [(str "a", str "x")] ∧
    translate_json_with_gemini fixLoads (fixRespondMismatch 0) = some [(str "b", str "y")] ∧
    mapKeys [(str "b", str "y")] ≠ mapKeys [(str "a", str "x")] ∧
    runMismatch.1 = [(str "m.jar",
      ⟨.ok [fixEntry, ⟨str "assets/m1/lang/ja_jp.json", str "D:by", 4⟩],
        some (.ok [fixEntry])⟩)] ∧
    runMismatch.2.succ = 1 :=
  ⟨by decide, by decide, by decide, by decide, by decide⟩

/-- C1 (amended): the Orchestrator performs no key-set validation: for
a nonempty reply, the accepted mapping is exactly whatever the
extracted payload parses to, whatever its keys; and any parsed
non-empty mapping is persisted by the pipeline step — absent a
filesystem failure the archive gains the corresponding entry —
regardless of how the key set of this mapping relates to the key set
of the source mapping.  (The only reply-side acceptance conditions are a non-falsy
reply, a successful parse and a non-falsy, i.e. non-empty, mapping.) -/
theorem C1_amended :
    (∀ (jsonLoads : List Char → Option LangMap) (t : List Char), t ≠ [] →
        translate_json_with_gemini jsonLoads (some t) = jsonLoads (extract_payload t)) ∧
    (∀ (β : Type) (decodeUtf8 : β → Option (List Char))
        (jsonLoads : List Char → Option LangMap) (jsonDumps : LangMap → List Char)
        (encodeUtf8 : List Char → β) (byteLen : List Char → Nat)
        (respond : Nat → Option (List Char)) (failPlan : Nat → Option SaveStep)
        (done rest : List (List Char × JarEnv β)) (st : RunSt) (lf : LangFileAdv)
        (es : List (ZipEntry β)) (backup : Option (JarData β)) (m : LangMap),
        translate_json_with_gemini jsonLoads (respond st.total) = some m →
        m ≠ [] →
        failPlan st.total = none →
        (stepFile decodeUtf8 jsonLoads jsonDumps encodeUtf8 byteLen respond failPlan
            done rest ⟨.ok es, backup⟩ st lf).1.data
          = .ok (es ++ [⟨ja_jp_path lf.path, encodeUtf8 (jsonDumps m),
              byteLen (jsonDumps m)⟩])) := by
  constructor
  · intro jsonLoads t ht
    have hie : t.isEmpty = false := by
      cases t with
      | nil => exact absurd rfl ht
      | cons a l => rfl
    simp [translate_json_with_gemini, hie]
  · intro β decodeUtf8 jsonLoads jsonDumps encodeUtf8 byteLen respond failPlan done rest
      st lf es backup m htr hmne hfail
    have hie : m.isEmpty = false := by
      cases m with
      | nil => exact absurd rfl hmne
      | cons a l => rfl
    show (match translate_json_with_gemini jsonLoads (respond st.total) with
      | some m =>
          if m.isEmpty then ((⟨.ok es, backup⟩ : JarEnv β), st.succ)
          else
            let serialized := jsonDumps m
            let r := save_translated_json_to_jar (failPlan st.total) ⟨.ok es, backup⟩ lf.path
              (encodeUtf8 serialized) (byteLen serialized)
            (r.2, if r.1 then st.succ + 1 else st.succ)
      | none => ((⟨.ok es, backup⟩ : JarEnv β), st.succ)).1.data = _
    rw [htr]
    simp only [hie, Bool.false_eq_true, if_false, hfail]
    cases backup with
    | none => rw [save_none_fresh]
    | some b => rw [save_none_kept]

/-- C1 witness: the amended statement evaluated on the key-mismatch
scenario — parse-only acceptance and persistence of a mapping whose key
set differs from that of the source. -/
theorem C1_witness :
    translate_json_with_gemini fixLoads (some (str "```json\nPAYB\n```"))
      = fixLoads (extract_payload (str "```json\nPAYB\n```")) ∧
    (stepFile fixDecode fixLoads fixDumps id List.length fixRespondMismatch noFail
        [] [] ⟨.ok [fixEntry], none⟩ ⟨0, 0, []⟩
        ⟨str "assets/m1/lang/en_us.json", [(str "a", str "x")], str "m1", str "en_us"⟩).1.data
      = .ok ([fixEntry] ++ [⟨ja_jp_path (str "assets/m1/lang/en_us.json"),
          id (fixDumps [(str "b", str "y")]), List.length (fixDumps [(str "b", str "y")])⟩]) :=
  ⟨C1_amended.1 fixLoads (str "```json\nPAYB\n```") (by decide),
    C1_amended.2 (List Char) fixDecode fixLoads fixDumps id List.length fixRespondMismatch
      noFail [] [] ⟨0, 0, []⟩
      ⟨str "assets/m1/lang/en_us.json", [(str "a", str "x")], str "m1", str "en_us"⟩
      [fixEntry] none [(str "b", str "y")] (by decide) (by decide) rfl⟩

/-! ## Claim C9: payload extraction from the boundary reply -/

/-- C9 counterexample: a reply holding an untagged fenced block with
content `A` before a json-tagged fenced block with content `B`.  The
content of the first fenced code block is `A`, but the source prefers the
json-tagged block and parses `B`. -/
theorem C9_counterexample :
    occursTok tick fenceReplyTwoBlocks = true ∧
    specFirstFencedPayload fenceReplyTwoBlocks = str "A" ∧
    extract_payload fenceReplyTwoBlocks = str "B" ∧
    translate_json_with_gemini fixLoads9 (some fenceReplyTwoBlocks)
      = some [(str "k", str "B")] ∧
    translate_json_with_gemini fixLoads9 (some fenceReplyTwoBlocks)
      ≠ fixLoads9 (specFirstFencedPayload fenceReplyTwoBlocks) :=
  ⟨by decide, by decide, by decide, by decide, by decide⟩

lemma isPrefixOf_trans : ∀ a b s : List Char,
    a.isPrefixOf b = true → b.isPrefixOf s = true → a.isPrefixOf s = true := by
  intro a
  induction a with
  | nil => intro b s _ _; exact isPrefixOf_nil_left s
  | cons x a ih =>
    intro b s h1 h2
    cases b with
    | nil => rw [isPrefixOf_cons_nil] at h1; cases h1
    | cons y b =>
      cases s with
      | nil => rw [isPrefixOf_cons_nil] at h2; cases h2
      | cons z s =>
        rw [isPrefixOf_cons_cons, Bool.and_eq_true, beq_iff_eq] at h1 h2 ⊢
        exact ⟨h1.1.trans h2.1, ih b s h1.2 h2.2⟩

lemma findIdx_isPrefixOf_drop (needle : List Char) :
    ∀ (s : List Char) (i : Nat), findIdx needle s = some i →
      needle.isPrefixOf (s.drop i) = true := by
  intro s
  induction s with
  | nil => intro i h; cases h
  | cons c s ih =>
    intro i h
    rw [findIdx_cons] at h
    by_cases hp : needle.isPrefixOf (c :: s) = true
    · rw [if_pos hp] at h
      cases h
      exact hp
    · rw [if_neg hp] at h
      cases hi : findIdx needle s with
      | none => rw [hi] at h; cases h
      | some j =>
        rw [hi] at h
        cases h
        rw [List.drop_succ_cons]
        exact ih j hi

lemma extract_payload_no_fence (t : List Char) (h : occursTok tick t = false) :
    extract_payload t = t := by
  have hj : findIdx tickJson t = none := by
    cases hf : findIdx tickJson t with
    | none => rfl
    | some i =>
      exfalso
      have h1 := findIdx_isPrefixOf_drop tickJson t i hf
      have h2 : tick.isPrefixOf (t.drop i) = true :=
        isPrefixOf_trans tick tickJson (t.drop i) (by decide) h1
      have h3 := occursTok_false_drop tick t (by decide) h i
      rw [h2] at h3
      cases h3
  have ht : findIdx tick t = none := by
    cases hf : findIdx tick t with
    | none => rfl
    | some i =>
      exfalso
      unfold occursTok at h
      rw [hf] at h
      cases h
  unfold extract_payload
  rw [hj, ht]

lemma findIdx_first (needle : List Char) (hne : needle ≠ []) :
    ∀ (pre tail : List Char),
      (∀ i, i < pre.length → needle.isPrefixOf ((pre ++ (needle ++ tail)).drop i) = false) →
      findIdx needle (pre ++ (needle ++ tail)) = some pre.length := by
  intro pre
  induction pre with
  | nil =>
    intro tail _
    rw [List.nil_append]
    cases hn : needle with
    | nil => exact absurd hn hne
    | cons a n =>
      have hp : (a :: n).isPrefixOf ((a :: n) ++ tail) = true := isPrefixOf_self_append _ _
      rw [List.cons_append] at hp
      rw [List.cons_append, findIdx_cons, if_pos hp]
      rfl
  | cons c pre ih =>
    intro tail h
    have h0 : needle.isPrefixOf (c :: (pre ++ (needle ++ tail))) = false := by
      have := h 0 (by simp)
      simpa using this
    have hrest : ∀ i, i < pre.length →
        needle.isPrefixOf ((pre ++ (needle ++ tail)).drop i) = false := by
      intro i hi
      have := h (i + 1) (by simpa using Nat.succ_lt_succ hi)
      simpa using this
    rw [List.cons_append, findIdx_cons, if_neg (by simp [h0]), ih tail hrest]
    rfl

lemma extract_payload_json_block (pre mid post : List Char)
    (hpre : ∀ i, i < pre.length →
      tickJson.isPrefixOf ((pre ++ (tickJson ++ (mid ++ (tick ++ post)))).drop i) = false)
    (hmid : ∀ i, i < mid.length →
      tick.isPrefixOf ((mid ++ (tick ++ post)).drop i) = false) :
    extract_payload (pre ++ (tickJson ++ (mid ++ (tick ++ post)))) = pyStrip mid := by
  have hd : (pre ++ (tickJson ++ (mid ++ (tick ++ post)))).drop (pre.length + 7)
      = mid ++ (tick ++ post) := by
    have hlen : pre.length + 7 = (pre ++ tickJson).length := by
      rw [List.length_append]
      rfl
    rw [← List.append_assoc, hlen, List.drop_left]
  unfold extract_payload
  rw [findIdx_first tickJson (by decide) pre _ hpre]
  simp only [hd, findIdx_first tick (by decide) mid post hmid, List.take_left]

lemma translate_json_with_gemini_some (jsonLoads : List Char → Option LangMap)
    (t : List Char) (ht : t ≠ []) :
    translate_json_with_gemini jsonLoads (some t) = jsonLoads (extract_payload t) := by
  have hie : t.isEmpty = false := by
    cases t with
    | nil => exact absurd rfl ht
    | cons a l => rfl
  simp [translate_json_with_gemini, hie]

lemma fence_reply_ne_nil (pre a b : List Char) (ha : a ≠ []) : pre ++ (a ++ b) ≠ [] := by
  intro h
  rcases List.append_eq_nil.mp h with ⟨_, h2⟩
  rcases List.append_eq_nil.mp h2 with ⟨h3, _⟩
  exact ha h3

lemma extract_payload_plain_block (pre mid post : List Char)
    (hnojson : occursTok tickJson (pre ++ (tick ++ (mid ++ (tick ++ post)))) = false)
    (hpre : ∀ i, i < pre.length →
      tick.isPrefixOf ((pre ++ (tick ++ (mid ++ (tick ++ post)))).drop i) = false)
    (hmid : ∀ i, i < mid.length →
      tick.isPrefixOf ((mid ++ (tick ++ post)).drop i) = false) :
    extract_payload (pre ++ (tick ++ (mid ++ (tick ++ post)))) = pyStrip mid := by
  have hj : findIdx tickJson (pre ++ (tick ++ (mid ++ (tick ++ post)))) = none := by
    cases hf : findIdx tickJson (pre ++ (tick ++ (mid ++ (tick ++ post)))) with
    | none => rfl
    | some i =>
      exfalso
      unfold occursTok at hnojson
      rw [hf] at hnojson
      cases hnojson
  have hd : (pre ++ (tick ++ (mid ++ (tick ++ post)))).drop (pre.length + 3)
      = mid ++ (tick ++ post) := by
    have hlen : pre.length + 3 = (pre ++ tick).length := by
      rw [List.length_append]
      rfl
    rw [← List.append_assoc, hlen, List.drop_left]
  unfold extract_payload
  rw [hj, findIdx_first tick (by decide) pre _ hpre]
  simp only [hd, findIdx_first tick (by decide) mid post hmid, List.take_left]

lemma extract_payload_json_unclosed (t : List Char) (i : Nat)
    (hj : findIdx tickJson t = some i)
    (hnoclose : findIdx tick (t.drop (i + 7)) = none) :
    extract_payload t = t := by
  unfold extract_payload
  rw [hj]
  simp only [hnoclose]

lemma extract_payload_plain_unclosed (t : List Char) (i : Nat)
    (hj : findIdx tickJson t = none)
    (hp : findIdx tick t = some i)
    (hnoclose : findIdx tick (t.drop (i + 3)) = none) :
    extract_payload t = t := by
  unfold extract_payload
  rw [hj, hp]
  simp only [hnoclose]

/-- C9 (amended): for a nonempty reply the parsed payload is, case by
case: the whole reply when it contains no fence at all; the stripped
text between the first json-tagged opener and the next fence when a
closed json-tagged block exists; the stripped text between the first
fence and the next one when no json tag occurs but a closed fenced
block exists; and the whole reply again when the chosen opener
(json-tagged, or plain in a tag-free reply) has no later closing fence.
In every case the parse of that payload is what the call returns, and a
payload that fails to parse yields the failure result `none` rather
than an exception. -/
theorem C9_amended :
    (∀ (jsonLoads : List Char → Option LangMap) (t : List Char), t ≠ [] →
        occursTok tick t = false →
        translate_json_with_gemini jsonLoads (some t) = jsonLoads t) ∧
    (∀ (jsonLoads : List Char → Option LangMap) (pre mid post : List Char),
        (∀ i, i < pre.length →
          tickJson.isPrefixOf ((pre ++ (tickJson ++ (mid ++ (tick ++ post)))).drop i) = false) →
        (∀ i, i < mid.length →
          tick.isPrefixOf ((mid ++ (tick ++ post)).drop i) = false) →
        extract_payload (pre ++ (tickJson ++ (mid ++ (tick ++ post)))) = pyStrip mid ∧
        translate_json_with_gemini jsonLoads
            (some (pre ++ (tickJson ++ (mid ++ (tick ++ post)))))
          = jsonLoads (pyStrip mid)) ∧
    (∀ (jsonLoads : List Char → Option LangMap) (pre mid post : List Char),
        occursTok tickJson (pre ++ (tick ++ (mid ++ (tick ++ post)))) = false →
        (∀ i, i < pre.length →
          tick.isPrefixOf ((pre ++ (tick ++ (mid ++ (tick ++ post)))).drop i) = false) →
        (∀ i, i < mid.length →
          tick.isPrefixOf ((mid ++ (tick ++ post)).drop i) = false) →
        extract_payload (pre ++ (tick ++ (mid ++ (tick ++ post)))) = pyStrip mid ∧
        translate_json_with_gemini jsonLoads
            (some (pre ++ (tick ++ (mid ++ (tick ++ post)))))
          = jsonLoads (pyStrip mid)) ∧
    (∀ (jsonLoads : List Char → Option LangMap) (t : List Char) (i : Nat), t ≠ [] →
        findIdx tickJson t = some i →
        findIdx tick (t.drop (i + 7)) = none →
        extract_payload t = t ∧
        translate_json_with_gemini jsonLoads (some t) = jsonLoads t) ∧
    (∀ (jsonLoads : List Char → Option LangMap) (t : List Char) (i : Nat), t ≠ [] →
        findIdx tickJson t = none →
        findIdx tick t = some i →
        findIdx tick (t.drop (i + 3)) = none →
        extract_payload t = t ∧
        translate_json_with_gemini jsonLoads (some t) = jsonLoads t) ∧
    (∀ (jsonLoads : List Char → Option LangMap) (t : List Char), t ≠ [] →
        jsonLoads (extract_payload t) = none →
        translate_json_with_gemini jsonLoads (some t) = none) := by
  refine ⟨?_, ?_, ?_, ?_, ?_, ?_⟩
  · intro jsonLoads t ht hocc
    rw [translate_json_with_gemini_some jsonLoads t ht, extract_payload_no_fence t hocc]
  · intro jsonLoads pre mid post hpre hmid
    have hne : pre ++ (tickJson ++ (mid ++ (tick ++ post))) ≠ [] :=
      fence_reply_ne_nil pre tickJson _ (by decide)
    have hx := extract_payload_json_block pre mid post hpre hmid
    exact ⟨hx, by rw [translate_json_with_gemini_some jsonLoads _ hne, hx]⟩
  · intro jsonLoads pre mid post hnojson hpre hmid
    have hne : pre ++ (tick ++ (mid ++ (tick ++ post))) ≠ [] :=
      fence_reply_ne_nil pre tick _ (by decide)
    have hx := extract_payload_plain_block pre mid post hnojson hpre hmid
    exact ⟨hx, by rw [translate_json_with_gemini_some jsonLoads _ hne, hx]⟩
  · intro jsonLoads t i ht hj hnoclose
    have hx := extract_payload_json_unclosed t i hj hnoclose
    exact ⟨hx, by rw [translate_json_with_gemini_some jsonLoads t ht, hx]⟩
  · intro jsonLoads t i ht hj hp hnoclose
    have hx := extract_payload_plain_unclosed t i hj hp hnoclose
    exact ⟨hx, by rw [translate_json_with_gemini_some jsonLoads t ht, hx]⟩
  · intro jsonLoads t ht hparse
    rw [translate_json_with_gemini_some jsonLoads t ht, hparse]

/-- C9 witness: the amended statement evaluated on concrete replies,
one per branch — a fence-free reply parsed whole, a json-tagged block
reduced to its stripped content, an untagged fenced block reduced to
its stripped content, a json opener without a closer and a plain opener
without a closer each parsed whole, and a junk reply giving `none`. -/
theorem C9_witness :
    translate_json_with_gemini fixLoads9 (some (str "B")) = fixLoads9 (str "B") ∧
    (extract_payload (str "reply: " ++ (tickJson ++ (str "\nB\n" ++ (tick ++ str " end"))))
        = pyStrip (str "\nB\n") ∧
      translate_json_with_gemini fixLoads9
          (some (str "reply: " ++ (tickJson ++ (str "\nB\n" ++ (tick ++ str " end")))))
        = fixLoads9 (pyStrip (str "\nB\n"))) ∧
    (extract_payload (str "x " ++ (tick ++ (str "\nA\n" ++ (tick ++ str " y"))))
        = pyStrip (str "\nA\n") ∧
      translate_json_with_gemini fixLoads9
          (some (str "x " ++ (tick ++ (str "\nA\n" ++ (tick ++ str " y")))))
        = fixLoads9 (pyStrip (str "\nA\n"))) ∧
    (extract_payload (str "```json open") = str "```json open" ∧
      translate_json_with_gemini fixLoads9 (some (str "```json open"))
        = fixLoads9 (str "```json open")) ∧
    (extract_payload (str "open ``` only") = str "open ``` only" ∧
      translate_json_with_gemini fixLoads9 (some (str "open ``` only"))
        = fixLoads9 (str "open ``` only")) ∧
    translate_json_with_gemini fixLoads (some (str "JUNK")) = none :=
  ⟨C9_amended.1 fixLoads9 (str "B") (by decide) (by decide),
    C9_amended.2.1 fixLoads9 (str "reply: ") (str "\nB\n") (str " end")
      (by decide) (by decide),
    C9_amended.2.2.1 fixLoads9 (str "x ") (str "\nA\n") (str " y")
      (by decide) (by decide) (by decide),
    C9_amended.2.2.2.1 fixLoads9 (str "```json open") 0 (by decide) (by decide) (by decide),
    C9_amended.2.2.2.2.1 fixLoads9 (str "open ``` only") 5
      (by decide) (by decide) (by decide) (by decide),
    C9_amended.2.2.2.2.2 fixLoads (str "JUNK") (by decide) (by decide)⟩

/-! ## Claim C8: rate limiting -/

/-- C8 counterexample: a concrete run over one archive with two
translatable files produces the trace call, sleep, call — there is no
delay before the first boundary call (and none after the last), so a
delay is not enforced before each request. -/
theorem C8_counterexample :
    runTwoJunk.2.events = [Ev.apiCall, Ev.sleepFor translation_delay, Ev.apiCall] ∧
    countCalls runTwoJunk.2.events = 2 ∧
    delayBeforeEachCall false runTwoJunk.2.events = false :=
  ⟨by decide, by decide, by decide⟩

lemma processEntryAdv_nonmatch {β : Type} (decodeUtf8 : β → Option (List Char))
    (jsonLoads : List Char → Option LangMap) (e : ZipEntry β)
    (h : matchesTranslate e.filename = false) :
    processEntryAdv decodeUtf8 jsonLoads e = none := by
  unfold processEntryAdv
  rw [if_neg]
  simp [h]

lemma find_adv_append_nonmatch {β : Type} (decodeUtf8 : β → Option (List Char))
    (jsonLoads : List Char → Option LangMap) (es : List (ZipEntry β)) (e : ZipEntry β)
    (h : matchesTranslate e.filename = false) :
    find_language_files_adv decodeUtf8 jsonLoads (.ok (es ++ [e]))
      = find_language_files_adv decodeUtf8 jsonLoads (.ok es) := by
  simp [find_language_files_adv, List.filterMap_append,
    processEntryAdv_nonmatch decodeUtf8 jsonLoads e h]

lemma save_find_stable {β : Type} (decodeUtf8 : β → Option (List Char))
    (jsonLoads : List Char → Option LangMap) (failAt : Option SaveStep) (env : JarEnv β)
    (p : List Char) (c : β) (n : Nat) (hclean : failAt ≠ some SaveStep.moveBackDirty)
    (h : matchesTranslate (ja_jp_path p) = false) :
    find_language_files_adv decodeUtf8 jsonLoads
        (save_translated_json_to_jar failAt env p c n).2.data
      = find_language_files_adv decodeUtf8 jsonLoads env.data := by
  cases hs : (save_translated_json_to_jar failAt env p c n).1 with
  | false => rw [save_fail_data failAt env p c n hclean hs]
  | true =>
    rcases save_success_shape failAt env p c n hs with ⟨es, hdata, hres⟩
    rw [hres, hdata]
    exact find_adv_append_nonmatch decodeUtf8 jsonLoads es ⟨ja_jp_path p, c, n⟩ h

lemma stepFile_fst {β : Type} (decodeUtf8 : β → Option (List Char))
    (jsonLoads : List Char → Option LangMap) (jsonDumps : LangMap → List Char)
    (encodeUtf8 : List Char → β) (byteLen : List Char → Nat)
    (respond : Nat → Option (List Char)) (failPlan : Nat → Option SaveStep)
    (done rest : List (List Char × JarEnv β)) (cur : JarEnv β) (st : RunSt)
    (lf : LangFileAdv) :
    (stepFile decodeUtf8 jsonLoads jsonDumps encodeUtf8 byteLen respond failPlan
        done rest cur st lf).1
      = (match translate_json_with_gemini jsonLoads (respond st.total) with
          | some m =>
              if m.isEmpty then cur
              else (save_translated_json_to_jar (failPlan st.total) cur lf.path
                (encodeUtf8 (jsonDumps m)) (byteLen (jsonDumps m))).2
          | none => cur) := by
  show (match translate_json_with_gemini jsonLoads (respond st.total) with
    | some m =>
        if m.isEmpty then (cur, st.succ)
        else
          let serialized := jsonDumps m
          let r := save_translated_json_to_jar (failPlan st.total) cur lf.path
            (encodeUtf8 serialized) (byteLen serialized)
          (r.2, if r.1 then st.succ + 1 else st.succ)
    | none => (cur, st.succ)).1 = _
  cases translate_json_with_gemini jsonLoads (respond st.total) with
  | none => rfl
  | some m =>
    by_cases hm : m.isEmpty = true
    · simp [hm]
    · simp [hm]

lemma stepFile_find_stable {β : Type} (decodeUtf8 : β → Option (List Char))
    (jsonLoads : List Char → Option LangMap) (jsonDumps : LangMap → List Char)
    (encodeUtf8 : List Char → β) (byteLen : List Char → Nat)
    (respond : Nat → Option (List Char)) (failPlan : Nat → Option SaveStep)
    (done rest : List (List Char × JarEnv β)) (cur : JarEnv β) (st : RunSt)
    (lf : LangFileAdv) (hclean : failPlan st.total ≠ some SaveStep.moveBackDirty)
    (h : matchesTranslate (ja_jp_path lf.path) = false) :
    find_language_files_adv decodeUtf8 jsonLoads
        (stepFile decodeUtf8 jsonLoads jsonDumps encodeUtf8 byteLen respond failPlan
          done rest cur st lf).1.data
      = find_language_files_adv decodeUtf8 jsonLoads cur.data := by
  rw [stepFile_fst]
  cases translate_json_with_gemini jsonLoads (respond st.total) with
  | none => rfl
  | some m =>
    by_cases hm : m.isEmpty = true
    · simp only [if_pos hm]
    · simp only [if_neg hm]
      exact save_find_stable decodeUtf8 jsonLoads (failPlan st.total) cur lf.path _ _ hclean h

lemma stepFile_events {β : Type} (decodeUtf8 : β → Option (List Char))
    (jsonLoads : List Char → Option LangMap) (jsonDumps : LangMap → List Char)
    (encodeUtf8 : List Char → β) (byteLen : List Char → Nat)
    (respond : Nat → Option (List Char)) (failPlan : Nat → Option SaveStep)
    (done rest : List (List Char × JarEnv β)) (cur : JarEnv β) (st : RunSt)
    (lf : LangFileAdv) :
    (stepFile decodeUtf8 jsonLoads jsonDumps encodeUtf8 byteLen respond failPlan
        done rest cur st lf).2.events
      = st.events ++ [Ev.apiCall] ++
        (if st.total + 1 < sumCounts decodeUtf8 jsonLoads done
            + jarCount decodeUtf8 jsonLoads
              (stepFile decodeUtf8 jsonLoads jsonDumps encodeUtf8 byteLen respond failPlan
                done rest cur st lf).1
            + sumCounts decodeUtf8 jsonLoads rest
          then [Ev.sleepFor translation_delay] else []) := rfl

lemma runFiles_pattern {β : Type} (decodeUtf8 : β → Option (List Char))
    (jsonLoads : List Char → Option LangMap) (jsonDumps : LangMap → List Char)
    (encodeUtf8 : List Char → β) (byteLen : List Char → Nat)
    (respond : Nat → Option (List Char)) (failPlan : Nat → Option SaveStep)
    (done rest : List (List Char × JarEnv β))
    (hclean : ∀ k, failPlan k ≠ some SaveStep.moveBackDirty) :
    ∀ (lfs : List LangFileAdv) (cur : JarEnv β) (st : RunSt),
      (∀ lf ∈ lfs, matchesTranslate (ja_jp_path lf.path) = false) →
      st.total + lfs.length
          = sumCounts decodeUtf8 jsonLoads done + jarCount decodeUtf8 jsonLoads cur →
      find_language_files_adv decodeUtf8 jsonLoads
          (runFiles decodeUtf8 jsonLoads jsonDumps encodeUtf8 byteLen respond failPlan
            done rest cur st lfs).1.data
        = find_language_files_adv decodeUtf8 jsonLoads cur.data ∧
      (runFiles decodeUtf8 jsonLoads jsonDumps encodeUtf8 byteLen respond failPlan
          done rest cur st lfs).2.total = st.total + lfs.length ∧
      (runFiles decodeUtf8 jsonLoads jsonDumps encodeUtf8 byteLen respond failPlan
          done rest cur st lfs).2.events
        = st.events ++ sleepPattern
            (sumCounts decodeUtf8 jsonLoads done + jarCount decodeUtf8 jsonLoads cur
              + sumCounts decodeUtf8 jsonLoads rest)
            st.total lfs.length := by
  intro lfs
  induction lfs with
  | nil =>
    intro cur st _ _
    refine ⟨rfl, by simp [runFiles], ?_⟩
    show st.events = st.events ++ sleepPattern _ st.total 0
    simp [sleepPattern]
  | cons lf lfs ih =>
    intro cur st hm htot
    have hmh := hm lf (List.mem_cons_self lf lfs)
    have hmt : ∀ x ∈ lfs, matchesTranslate (ja_jp_path x.path) = false :=
      fun x hx => hm x (List.mem_cons_of_mem lf hx)
    have hstab := stepFile_find_stable decodeUtf8 jsonLoads jsonDumps encodeUtf8 byteLen
      respond failPlan done rest cur st lf (hclean st.total) hmh
    have hjc : jarCount decodeUtf8 jsonLoads
        (stepFile decodeUtf8 jsonLoads jsonDumps encodeUtf8 byteLen respond failPlan
          done rest cur st lf).1 = jarCount decodeUtf8 jsonLoads cur := by
      unfold jarCount
      rw [hstab]
    have hst2 : (stepFile decodeUtf8 jsonLoads jsonDumps encodeUtf8 byteLen respond failPlan
        done rest cur st lf).2.total = st.total + 1 := rfl
    have hinv : (stepFile decodeUtf8 jsonLoads jsonDumps encodeUtf8 byteLen respond failPlan
          done rest cur st lf).2.total + lfs.length
        = sumCounts decodeUtf8 jsonLoads done + jarCount decodeUtf8 jsonLoads
            (stepFile decodeUtf8 jsonLoads jsonDumps encodeUtf8 byteLen respond failPlan
              done rest cur st lf).1 := by
      rw [hst2, hjc]
      simp at htot
      omega
    have hrec := ih (stepFile decodeUtf8 jsonLoads jsonDumps encodeUtf8 byteLen respond
        failPlan done rest cur st lf).1
      (stepFile decodeUtf8 jsonLoads jsonDumps encodeUtf8 byteLen respond failPlan
        done rest cur st lf).2 hmt hinv
    refine ⟨?_, ?_, ?_⟩
    · show find_language_files_adv decodeUtf8 jsonLoads
          (runFiles decodeUtf8 jsonLoads jsonDumps encodeUtf8 byteLen respond failPlan
            done rest _ _ lfs).1.data = _
      rw [hrec.1, hstab]
    · show (runFiles decodeUtf8 jsonLoads jsonDumps encodeUtf8 byteLen respond failPlan
          done rest _ _ lfs).2.total = _
      rw [hrec.2.1, hst2]
      simp
      omega
    · show (runFiles decodeUtf8 jsonLoads jsonDumps encodeUtf8 byteLen respond failPlan
          done rest _ _ lfs).2.events = _
      rw [hrec.2.2, hjc, hst2, stepFile_events, hjc]
      show st.events ++ [Ev.apiCall] ++ _ ++ sleepPattern _ (st.total + 1) lfs.length = _
      rw [List.append_assoc, List.append_assoc]
      show st.events ++ ([Ev.apiCall] ++ (_ ++ sleepPattern _ (st.total + 1) lfs.length))
          = st.events ++ sleepPattern _ st.total (lfs.length + 1)
      rw [List.singleton_append]
      rfl

lemma sleepPattern_append (N : Nat) : ∀ (m k n : Nat),
    sleepPattern N k m ++ sleepPattern N (k + m) n = sleepPattern N k (m + n) := by
  intro m
  induction m with
  | zero => intro k n; simp [sleepPattern]
  | succ m ih =>
    intro k n
    show (Ev.apiCall :: (_ ++ sleepPattern N (k + 1) m)) ++ sleepPattern N (k + (m + 1)) n
        = sleepPattern N k (m + 1 + n)
    have h1 : k + (m + 1) = (k + 1) + m := by omega
    have h2 : m + 1 + n = (m + n) + 1 := by omega
    rw [h1, h2]
    show Ev.apiCall :: ((_ ++ sleepPattern N (k + 1) m) ++ sleepPattern N (k + 1 + m) n)
        = Ev.apiCall :: (_ ++ sleepPattern N (k + 1) (m + n))
    rw [List.append_assoc, ih (k + 1) n]

lemma runJars_pattern {β : Type} (decodeUtf8 : β → Option (List Char))
    (jsonLoads : List Char → Option LangMap) (jsonDumps : LangMap → List Char)
    (encodeUtf8 : List Char → β) (byteLen : List Char → Nat)
    (respond : Nat → Option (List Char)) (failPlan : Nat → Option SaveStep)
    (hclean : ∀ k, failPlan k ≠ some SaveStep.moveBackDirty) :
    ∀ (todo done : List (List Char × JarEnv β)) (st : RunSt),
      (∀ pe ∈ todo, ∀ lf ∈ find_language_files_adv decodeUtf8 jsonLoads pe.2.data,
          matchesTranslate (ja_jp_path lf.path) = false) →
      st.total = sumCounts decodeUtf8 jsonLoads done →
      (runJars decodeUtf8 jsonLoads jsonDumps encodeUtf8 byteLen respond failPlan
          done st todo).2.events
        = st.events ++ sleepPattern
            (sumCounts decodeUtf8 jsonLoads done + sumCounts decodeUtf8 jsonLoads todo)
            st.total (sumCounts decodeUtf8 jsonLoads todo) ∧
      (runJars decodeUtf8 jsonLoads jsonDumps encodeUtf8 byteLen respond failPlan
          done st todo).2.total = st.total + sumCounts decodeUtf8 jsonLoads todo := by
  intro todo
  induction todo with
  | nil =>
    intro done st _ _
    constructor
    · show st.events = st.events ++ sleepPattern _ st.total (sumCounts decodeUtf8 jsonLoads [])
      simp [sumCounts, sleepPattern]
    · show st.total = st.total + sumCounts decodeUtf8 jsonLoads []
      simp [sumCounts]
  | cons pe rest ih =>
    intro done st H htot
    rcases pe with ⟨p, env⟩
    have Hh := H (p, env) (List.mem_cons_self _ _)
    have Ht : ∀ x ∈ rest, ∀ lf ∈ find_language_files_adv decodeUtf8 jsonLoads x.2.data,
        matchesTranslate (ja_jp_path lf.path) = false :=
      fun x hx => H x (List.mem_cons_of_mem _ hx)
    have hlen : (find_language_files_adv decodeUtf8 jsonLoads env.data).length
        = jarCount decodeUtf8 jsonLoads env := rfl
    have hinv : st.total + (find_language_files_adv decodeUtf8 jsonLoads env.data).length
        = sumCounts decodeUtf8 jsonLoads done + jarCount decodeUtf8 jsonLoads env := by
      rw [hlen, htot]
    have hrf := runFiles_pattern decodeUtf8 jsonLoads jsonDumps encodeUtf8 byteLen respond
      failPlan done rest hclean (find_language_files_adv decodeUtf8 jsonLoads env.data) env st
      Hh hinv
    have hjc : jarCount decodeUtf8 jsonLoads
        (runFiles decodeUtf8 jsonLoads jsonDumps encodeUtf8 byteLen respond failPlan
          done rest env st (find_language_files_adv decodeUtf8 jsonLoads env.data)).1
        = jarCount decodeUtf8 jsonLoads env := by
      unfold jarCount
      rw [hrf.1]
    have htot2 : (runFiles decodeUtf8 jsonLoads jsonDumps encodeUtf8 byteLen respond failPlan
          done rest env st (find_language_files_adv decodeUtf8 jsonLoads env.data)).2.total
        = sumCounts decodeUtf8 jsonLoads
            ((p, (runFiles decodeUtf8 jsonLoads jsonDumps encodeUtf8 byteLen respond failPlan
              done rest env st (find_language_files_adv decodeUtf8 jsonLoads env.data)).1)
              :: done) := by
      rw [hrf.2.1, hlen, htot]
      show sumCounts decodeUtf8 jsonLoads done + jarCount decodeUtf8 jsonLoads env
        = jarCount decodeUtf8 jsonLoads _ + sumCounts decodeUtf8 jsonLoads done
      rw [hjc]
      omega
    have hrec := ih ((p, (runFiles decodeUtf8 jsonLoads jsonDumps encodeUtf8 byteLen respond
        failPlan done rest env st (find_language_files_adv decodeUtf8 jsonLoads env.data)).1)
        :: done)
      (runFiles decodeUtf8 jsonLoads jsonDumps encodeUtf8 byteLen respond failPlan
        done rest env st (find_language_files_adv decodeUtf8 jsonLoads env.data)).2
      Ht htot2
    have hsum : sumCounts decodeUtf8 jsonLoads
        ((p, (runFiles decodeUtf8 jsonLoads jsonDumps encodeUtf8 byteLen respond failPlan
          done rest env st (find_language_files_adv decodeUtf8 jsonLoads env.data)).1) :: done)
        = jarCount decodeUtf8 jsonLoads env + sumCounts decodeUtf8 jsonLoads done := by
      show jarCount decodeUtf8 jsonLoads _ + sumCounts decodeUtf8 jsonLoads done = _
      rw [hjc]
    have hsumtodo : sumCounts decodeUtf8 jsonLoads ((p, env) :: rest)
        = jarCount decodeUtf8 jsonLoads env + sumCounts decodeUtf8 jsonLoads rest := rfl
    constructor
    · show (runJars decodeUtf8 jsonLoads jsonDumps encodeUtf8 byteLen respond failPlan
          _ _ rest).2.events = _
      rw [hrec.1, hsum, hrf.2.2, hrf.2.1, hlen, hsumtodo]
      rw [List.append_assoc]
      have harr : sumCounts decodeUtf8 jsonLoads done + jarCount decodeUtf8 jsonLoads env
            + sumCounts decodeUtf8 jsonLoads rest
          = jarCount decodeUtf8 jsonLoads env + sumCounts decodeUtf8 jsonLoads done
            + sumCounts decodeUtf8 jsonLoads rest := by omega
      have harr2 : sumCounts decodeUtf8 jsonLoads done
            + (jarCount decodeUtf8 jsonLoads env + sumCounts decodeUtf8 jsonLoads rest)
          = jarCount decodeUtf8 jsonLoads env + sumCounts decodeUtf8 jsonLoads done
            + sumCounts decodeUtf8 jsonLoads rest := by omega
      rw [harr, harr2, htot]
      rw [sleepPattern_append]
    · show (runJars decodeUtf8 jsonLoads jsonDumps encodeUtf8 byteLen respond failPlan
          _ _ rest).2.total = _
      rw [hrec.2, hrf.2.1, hlen, hsumtodo]
      omega

/-- C8 (amended): the rate limit is an inter-call delay, not a delay
before each call: whenever no derived target path would itself be
matched by the locator again and no save failure corrupts an archive
(so the per-run file total, which the sleep guard recomputes by
rescanning every archive, is stable under the mutations of the run
itself — a replace failure that truncates an archive genuinely changes
the rescan in the source as well), the event trace of a whole run
consists of the boundary calls in order with exactly one sleep of the
configured delay (`translation_delay`, the fixed default of one second)
after every call except the last, no sleep before the first call, and
this trace is the same whatever the replies, parse failures or injected
non-corrupting save failures — the delay is independent of the success
or failure of the calls. -/
theorem C8_amended (β : Type) (decodeUtf8 : β → Option (List Char))
    (jsonLoads : List Char → Option LangMap) (jsonDumps : LangMap → List Char)
    (encodeUtf8 : List Char → β) (byteLen : List Char → Nat)
    (respond : Nat → Option (List Char)) (failPlan : Nat → Option SaveStep)
    (jars : List (List Char × JarEnv β))
    (hclean : ∀ k, failPlan k ≠ some SaveStep.moveBackDirty)
    (H : ∀ pe ∈ jars, ∀ lf ∈ find_language_files_adv decodeUtf8 jsonLoads pe.2.data,
        matchesTranslate (ja_jp_path lf.path) = false) :
    (translate_mod_files decodeUtf8 jsonLoads jsonDumps encodeUtf8 byteLen respond failPlan
        jars).2.events
      = sleepPattern (sumCounts decodeUtf8 jsonLoads jars) 0
          (sumCounts decodeUtf8 jsonLoads jars) := by
  unfold translate_mod_files
  have h := (runJars_pattern decodeUtf8 jsonLoads jsonDumps encodeUtf8 byteLen respond
    failPlan hclean jars [] ⟨0, 0, []⟩ H rfl).1
  simpa [sumCounts] using h

/-- C8 witness: the amended statement evaluated on the concrete
two-file run; the trace is call, sleep, call. -/
theorem C8_witness :
    runTwoJunk.2.events = sleepPattern 2 0 2 := by
  have h := C8_amended (List Char) fixDecode fixLoads fixDumps id List.length fixRespondJunk
    noFail [(str "m.jar", fixJar2)] (fun _ hk => Option.noConfusion hk) (by decide)
  have hs : sumCounts fixDecode fixLoads [(str "m.jar", fixJar2)] = 2 := by decide
  rw [hs] at h
  exact h

end ModAutoTranslator
